import Mathlib

/-!
Verification development for the AML language implementation
(lexer `aml/lexer.py`, parser `aml/parser.py`, interpreter `aml/interpreter.py`).

The Python sources are shallowly embedded: each Python method becomes a Lean
function of the same name operating on explicit state values.  Loops and
recursion are driven by an explicit fuel parameter; running out of fuel is a
distinguished outcome (`fuelOut`), never a wrong answer.  Python `int` is
`Int`; Python `float` is modelled as `Rat` (exact for every value appearing in
the statements below); Python strings are `String` over their characters, with
the `str` character classification functions (`isspace`, `isalpha`, ...)
modelled on their ASCII behaviour.
-/

namespace AML

/-! ### Character classification (ASCII model of the Python `str` predicates) -/

def pyIsSpace (c : Char) : Bool :=
  c == ' ' || c == '\t' || c == '\n' || c == '\r' || c == '\x0b' || c == '\x0c'

def pyIsDigit (c : Char) : Bool := c.isDigit

def pyIsAlpha (c : Char) : Bool := c.isAlpha

def pyIsAlnum (c : Char) : Bool := pyIsAlpha c || pyIsDigit c

/-! ### Numbers: Python `int` / `float` values carried by tokens and AST nodes -/

/-- A Python number: `int` or `float` (floats modelled as exact rationals). -/
inductive NumVal where
  | int (n : Int)
  | float (q : Rat)
  deriving DecidableEq, Repr

/-! ### tokens.py -/

inductive TokenType where
  | IDENTIFIER | NUMBER | STRING | TRUE | FALSE | NULL
  | IN | VAR | CONST | FUNC | IF | ELSE | WHILE | FOR | RETURN
  | IMPORT_PY | IMPORT_AML | TRY | CATCH | NAMESPACE | SPAWN
  | META | PARALLEL | AS | RAISE
  | PLUS | MINUS | MULTIPLY | DIVIDE | MODULO | POWER | FLOOR_DIVIDE
  | NOT | AND | OR | ASSIGN | EQUALS | NOT_EQUALS
  | LESS_THAN | GREATER_THAN | LESS_THAN_EQUALS | GREATER_THAN_EQUALS
  | COLON | AT | LPAREN | RPAREN | LBRACE | RBRACE | LBRACKET | RBRACKET
  | COMMA | DOT | DOT_DOT | BACKSLASH | NEWLINE | BREAK | CONTINUE | EOF
  deriving DecidableEq, Repr

/-- The dynamically typed `Token.value` field: a string, a number, or `None`. -/
inductive TokVal where
  | str (s : String)
  | num (v : NumVal)
  | none
  deriving DecidableEq, Repr

structure Token where
  type : TokenType
  value : TokVal
  line : Nat
  column : Nat
  deriving DecidableEq, Repr

/-- The `KEYWORDS` table of tokens.py: `KEYWORDS.get(result, IDENTIFIER)`. -/
def keywords (s : String) : TokenType :=
  if s = "var" then .VAR
  else if s = "const" then .CONST
  else if s = "func" then .FUNC
  else if s = "if" then .IF
  else if s = "else" then .ELSE
  else if s = "while" then .WHILE
  else if s = "for" then .FOR
  else if s = "return" then .RETURN
  else if s = "import_py" then .IMPORT_PY
  else if s = "import_aml" then .IMPORT_AML
  else if s = "try" then .TRY
  else if s = "catch" then .CATCH
  else if s = "namespace" then .NAMESPACE
  else if s = "spawn" then .SPAWN
  else if s = "break" then .BREAK
  else if s = "continue" then .CONTINUE
  else if s = "in" then .IN
  else if s = "True" then .TRUE
  else if s = "False" then .FALSE
  else if s = "true" then .TRUE
  else if s = "false" then .FALSE
  else if s = "null" then .NULL
  else if s = "meta" then .META
  else if s = "parallel" then .PARALLEL
  else if s = "as" then .AS
  else if s = "raise" then .RAISE
  else .IDENTIFIER

/-! ### lexer.py

The `Lexer` object's mutable fields become `LexState`.  The Python field
`current_char` always equals `text[pos]` when `pos < len(text)` and `None`
otherwise (established by `__init__` and maintained by `advance`), so it is
represented as the derived function `currentChar`. -/

structure LexState where
  text : List Char
  pos : Nat
  line : Nat
  column : Nat
  deriving Repr

namespace Lexer

def initState (text : List Char) : LexState :=
  { text := text, pos := 0, line := 1, column := 1 }

def currentChar (s : LexState) : Option Char := s.text[s.pos]?

/-- `Lexer.advance`: move one character; entering a `'\n'` character resets
`column` to `0` and bumps `line`. -/
def advance (s : LexState) : LexState :=
  let pos := s.pos + 1
  let column := s.column + 1
  match s.text[pos]? with
  | some c =>
      if c = '\n' then { s with pos := pos, line := s.line + 1, column := 0 }
      else { s with pos := pos, column := column }
  | none => { s with pos := pos, column := column }

def peek (s : LexState) : Option Char := s.text[s.pos + 1]?

def peekN (s : LexState) (n : Nat) : Option Char := s.text[s.pos + n]?

/-- Lexer failures.  `fuelOut` is the out-of-fuel marker of the embedding. -/
inductive LexErr where
  | invalidChar (c : Option Char) (line column : Nat)
  | unterminated (line column : Nat)
  | fuelOut
  deriving DecidableEq, Repr

/-- `Lexer.skip_whitespace`. -/
def skipWhitespace (fuel : Nat) (s : LexState) : LexState :=
  match fuel with
  | 0 => s
  | fuel + 1 =>
      match currentChar s with
      | some c =>
          if pyIsSpace c && c != '\n' then skipWhitespace fuel (advance s) else s
      | none => s

/-- `Lexer.skip_comment`. -/
def skipComment (fuel : Nat) (s : LexState) : LexState :=
  match fuel with
  | 0 => s
  | fuel + 1 =>
      match currentChar s with
      | some c => if c != '\n' then skipComment fuel (advance s) else s
      | none => s

/-- Characters collected by the digit loops of `Lexer.number`. -/
def takeDigits (fuel : Nat) (s : LexState) (acc : List Char) :
    List Char × LexState :=
  match fuel with
  | 0 => (acc, s)
  | fuel + 1 =>
      match currentChar s with
      | some c =>
          if pyIsDigit c then takeDigits fuel (advance s) (acc ++ [c])
          else (acc, s)
      | none => (acc, s)

/-- Value of a digit string (no sign). -/
def digitsVal (cs : List Char) : Nat :=
  cs.foldl (fun acc c => acc * 10 + (c.toNat - '0'.toNat)) 0

/-- Python `int(result)` on the collected characters (optional leading `-`). -/
def parseIntChars (cs : List Char) : Int :=
  match cs with
  | '-' :: rest => -(digitsVal rest : Int)
  | _ => (digitsVal cs : Int)

/-- Python `float(result)` on digits with one `'.'` (exact rational model). -/
def parseFloatChars (cs : List Char) : Rat :=
  let (sign, body) :=
    match cs with
    | '-' :: rest => ((-1 : Rat), rest)
    | _ => ((1 : Rat), cs)
  let intPart := body.takeWhile (fun c => c ≠ '.')
  let fracPart := (body.dropWhile (fun c => c ≠ '.')).drop 1
  sign * ((digitsVal intPart : Rat) +
    (digitsVal fracPart : Rat) / ((10 : Rat) ^ fracPart.length))

/-- The leading-`-` step of `Lexer.number`. -/
def lexNumberSign (s : LexState) : List Char × LexState :=
  match currentChar s with
  | some '-' => (['-'], advance s)
  | _ => (([] : List Char), s)

/-- The fractional-part step of `Lexer.number` (stops before a range `..`).
-/
def lexNumberFrac (fuel : Nat) (s1 : LexState) (res1 : List Char) :
    List Char × LexState :=
  match currentChar s1 with
  | some '.' =>
      match peek s1 with
      | some '.' => (res1, s1)   -- a range operator `..` starts here
      | _ =>
          let s' := advance s1
          takeDigits fuel s' (res1 ++ ['.'])
  | _ => (res1, s1)

/-- `Lexer.number`: optional `-`, digits, optional fraction (unless `..`). -/
def lexNumber (fuel : Nat) (s : LexState) : Token × LexState :=
  let tokenColumn := s.column
  let (res0, s0) := lexNumberSign s
  let (res1, s1) := takeDigits fuel s0 res0
  let (res2, s2) := lexNumberFrac fuel s1 res1
  let value : TokVal :=
    if res2.contains '.' then .num (.float (parseFloatChars res2))
    else .num (.int (parseIntChars res2))
  (⟨.NUMBER, value, s2.line, tokenColumn⟩, s2)

/-- Loop body of `Lexer._string_any`, accumulating the string contents. -/
def stringBody (fuel : Nat) (quote : Char) (s : LexState) (acc : List Char) :
    List Char × LexState :=
  match fuel with
  | 0 => (acc, s)
  | fuel + 1 =>
      match currentChar s with
      | none => (acc, s)
      | some c =>
          if c = quote then (acc, s)
          else if c = '\\' then
            let s1 := advance s
            let acc' :=
              match currentChar s1 with
              | some 'n' => acc ++ ['\n']
              | some 't' => acc ++ ['\t']
              | some 'r' => acc ++ ['\r']
              | some '"' => acc ++ ['"']
              | some '\'' => acc ++ ['\'']
              | some '\\' => acc ++ ['\\']
              | some c1 =>
                  if c1 = '/' || pyIsAlnum c1 || c1 = '_' || c1 = '.' then
                    acc ++ ['\\', c1]
                  else acc ++ ['\\', c1]
              | none => acc ++ ['\\']
            stringBody fuel quote (advance s1) acc'
          else stringBody fuel quote (advance s) (acc ++ [c])

/-- `Lexer._string_any`. -/
def stringAny (fuel : Nat) (quote : Char) (s : LexState) :
    Except LexErr (Token × LexState) :=
  let tokenColumn := s.column
  let s0 := advance s   -- skip opening quote
  let (res, s1) := stringBody fuel quote s0 []
  if currentChar s1 = some quote then
    .ok (⟨.STRING, .str ⟨res⟩, s1.line, tokenColumn⟩, advance s1)
  else
    .error (.unterminated s1.line tokenColumn)

/-- Characters collected by the loop of `Lexer.identifier`. -/
def takeIdentChars (fuel : Nat) (s : LexState) (acc : List Char) :
    List Char × LexState :=
  match fuel with
  | 0 => (acc, s)
  | fuel + 1 =>
      match currentChar s with
      | some c =>
          if pyIsAlnum c || c = '_' then takeIdentChars fuel (advance s) (acc ++ [c])
          else (acc, s)
      | none => (acc, s)

/-- `Lexer.identifier`. -/
def lexIdentifier (fuel : Nat) (s : LexState) : Token × LexState :=
  let tokenColumn := s.column
  let (res, s1) := takeIdentChars fuel s []
  let name : String := ⟨res⟩
  (⟨keywords name, .str name, s1.line, tokenColumn⟩, s1)

/-- `Lexer.get_next_token`.  The Python `while` with `continue` becomes
recursion on fuel. -/
def getNextToken (fuel : Nat) (s : LexState) : Except LexErr (Token × LexState) :=
  match fuel with
  | 0 => .error .fuelOut
  | fuel + 1 =>
      match currentChar s with
      | none => .ok (⟨.EOF, .none, s.line, s.column⟩, s)
      | some c =>
          if pyIsSpace c && c != '\n' then
            getNextToken fuel (skipWhitespace fuel s)
          else if c = '\n' then
            .ok (⟨.NEWLINE, .str "\n", s.line, s.column⟩, advance s)
          else if c = '/' && peek s = some '/' then
            if peekN s 2 = some '=' then
              let s' := advance (advance s)
              .ok (⟨.FLOOR_DIVIDE, .str "//", s'.line, s'.column - 2⟩, s')
            else
              getNextToken fuel (skipComment fuel (advance (advance s)))
          else if pyIsAlpha c || c = '_' then
            .ok (lexIdentifier fuel s)
          else if pyIsDigit c ||
              (c = '-' && (peek s).elim false pyIsDigit) then
            .ok (lexNumber fuel s)
          else if c = '"' then
            stringAny fuel '"' s
          else if c = '\'' then
            stringAny fuel '\'' s
          else if c = '&' then
            if peek s = some '&' then
              let tokenColumn := s.column
              let s' := advance (advance s)
              .ok (⟨.AND, .str "&&", s'.line, tokenColumn⟩, s')
            else .error (.invalidChar (some c) s.line s.column)
          else if c = '|' then
            if peek s = some '|' then
              let tokenColumn := s.column
              let s' := advance (advance s)
              .ok (⟨.OR, .str "||", s'.line, tokenColumn⟩, s')
            else .error (.invalidChar (some c) s.line s.column)
          else if c = '+' then
            .ok (⟨.PLUS, .str "+", s.line, s.column⟩, advance s)
          else if c = '-' then
            .ok (⟨.MINUS, .str "-", s.line, s.column⟩, advance s)
          else if c = '*' then
            if peek s = some '*' then
              let tokenColumn := s.column
              let s' := advance (advance s)
              .ok (⟨.POWER, .str "**", s'.line, tokenColumn⟩, s')
            else .ok (⟨.MULTIPLY, .str "*", s.line, s.column⟩, advance s)
          else if c = '/' then
            .ok (⟨.DIVIDE, .str "/", s.line, s.column⟩, advance s)
          else if c = '%' then
            .ok (⟨.MODULO, .str "%", s.line, s.column⟩, advance s)
          else if c = '=' then
            let tokenColumn := s.column
            let s1 := advance s
            if currentChar s1 = some '=' then
              .ok (⟨.EQUALS, .str "==", (advance s1).line, tokenColumn⟩, advance s1)
            else .ok (⟨.ASSIGN, .str "=", s1.line, tokenColumn⟩, s1)
          else if c = '!' then
            let tokenLine := s.line
            let tokenColumn := s.column
            let s1 := advance s
            if currentChar s1 = some '=' then
              .ok (⟨.NOT_EQUALS, .str "!=", tokenLine, tokenColumn⟩, advance s1)
            else .ok (⟨.NOT, .str "!", tokenLine, tokenColumn⟩, s1)
          else if c = '<' then
            let tokenColumn := s.column
            let s1 := advance s
            if currentChar s1 = some '=' then
              .ok (⟨.LESS_THAN_EQUALS, .str "<=", (advance s1).line, tokenColumn⟩,
                advance s1)
            else .ok (⟨.LESS_THAN, .str "<", s1.line, tokenColumn⟩, s1)
          else if c = '>' then
            let tokenColumn := s.column
            let s1 := advance s
            if currentChar s1 = some '=' then
              .ok (⟨.GREATER_THAN_EQUALS, .str ">=", (advance s1).line, tokenColumn⟩,
                advance s1)
            else .ok (⟨.GREATER_THAN, .str ">", s1.line, tokenColumn⟩, s1)
          else if c = '(' then
            .ok (⟨.LPAREN, .str "(", s.line, s.column⟩, advance s)
          else if c = ')' then
            .ok (⟨.RPAREN, .str ")", s.line, s.column⟩, advance s)
          else if c = '{' then
            .ok (⟨.LBRACE, .str "\x7b", s.line, s.column⟩, advance s)
          else if c = '}' then
            .ok (⟨.RBRACE, .str "\x7d", s.line, s.column⟩, advance s)
          else if c = '[' then
            .ok (⟨.LBRACKET, .str "[", s.line, s.column⟩, advance s)
          else if c = ']' then
            .ok (⟨.RBRACKET, .str "]", s.line, s.column⟩, advance s)
          else if c = ',' then
            .ok (⟨.COMMA, .str ",", s.line, s.column⟩, advance s)
          else if c = '.' then
            let tokenColumn := s.column
            let s1 := advance s
            if currentChar s1 = some '.' then
              .ok (⟨.DOT_DOT, .str "..", (advance s1).line, tokenColumn⟩, advance s1)
            else .ok (⟨.DOT, .str ".", s1.line, tokenColumn⟩, s1)
          else if c = ':' then
            .ok (⟨.COLON, .str ":", s.line, s.column⟩, advance s)
          else if c = '@' then
            .ok (⟨.AT, .str "@", s.line, s.column⟩, advance s)
          else if c = '\\' then
            .ok (⟨.BACKSLASH, .str "\\", s.line, s.column⟩, advance s)
          else .error (.invalidChar (some c) s.line s.column)

/-- The loop of `Lexer.tokenize`: collect tokens up to and including `EOF`. -/
def lexAll (fuel : Nat) (s : LexState) : Except LexErr (List Token) :=
  match fuel with
  | 0 => .error .fuelOut
  | fuel + 1 =>
      match getNextToken (fuel + 1) s with
      | .error e => .error e
      | .ok (tok, s') =>
          if tok.type = .EOF then .ok [tok]
          else
            match lexAll fuel s' with
            | .error e => .error e
            | .ok rest => .ok (tok :: rest)

/-- `Lexer.tokenize` on a source text. -/
def tokenize (fuel : Nat) (text : List Char) : Except LexErr (List Token) :=
  lexAll fuel (initState text)

end Lexer

/-! ### parser.py — AST node classes

Python parameter specifications are `name` or `(name, default_expr)`;
embedded as `String × Option AST`.  Node fields that the claims never touch
(line/column `token` back-references, the mutable handler cache) are omitted.
The Python class `String` is embedded as the constructor `AST.String`. -/

inductive AST where
  | Number (value : NumVal)
  | String (value : String)
  | Boolean (value : Bool)
  | Null
  | Identifier (name : String)
  | ListLiteral (elements : List AST)
  | ListComprehension (expression : AST) (varName : String) (iterable : AST)
      (condition : Option AST)
  | DictLiteral (elements : List (AST × AST))
  | DictComprehension (keyExpression : AST) (valueExpression : AST)
      (varName : String) (iterable : AST) (condition : Option AST)
  | IndexAccess (target : AST) (index : AST)
  | AttributeAccess (target : AST) (attrName : String)
  | BinaryOperation (left : AST) (op : TokenType) (right : AST)
  | UnaryOperation (op : TokenType) (expr : AST)
  | RangeExpression (startExpr : AST) (endExpr : AST)
  | Pointer (target : AST)
  | FunctionCall (name : String) (args : List AST) (kwargs : List (String × AST))
  | MethodCall (objectName : Option String) (methodName : String)
      (args : List AST) (kwargs : List (String × AST)) (objectExpr : Option AST)
  | SpawnCall (callNode : AST)
  | PythonClassInstance (className : String) (args : List AST)
      (kwargs : List (String × AST))
  | VarDeclaration (name : String) (value : AST)
  | ConstDeclaration (name : String) (value : AST)
  | Assignment (name : String) (value : AST) (targetExpr : Option AST)
  | ReturnStatement (value : Option AST)
  | RaiseStatement (expression : AST)
  | BreakStatement
  | ContinueStatement
  | TryCatchStatement (tryBody : List AST) (catchBody : List AST)
      (errorVar : Option String)
  | FunctionDeclaration (name : String) (params : List (String × Option AST))
      (body : List AST) (nsPath : List String) (localsCount : Nat)
  deriving Repr

/-! ### Python arithmetic on numbers (`int`/`float`, floats as rationals) -/

def NumVal.toRat : NumVal → Rat
  | .int n => (n : Rat)
  | .float q => q

def pyNumIsZero (v : NumVal) : Bool := v.toRat = 0

def pyNumAdd : NumVal → NumVal → NumVal
  | .int a, .int b => .int (a + b)
  | a, b => .float (a.toRat + b.toRat)

def pyNumSub : NumVal → NumVal → NumVal
  | .int a, .int b => .int (a - b)
  | a, b => .float (a.toRat - b.toRat)

def pyNumMul : NumVal → NumVal → NumVal
  | .int a, .int b => .int (a * b)
  | a, b => .float (a.toRat * b.toRat)

/-- Python true division always yields a `float`.  Callers check for a zero
divisor first. -/
def pyNumDiv (a b : NumVal) : NumVal := .float (a.toRat / b.toRat)

/-- Python `//`: floor division; `int // int` stays `int`, otherwise `float`.
`Int.fdiv` rounds towards `-∞` exactly as Python does. -/
def pyNumFloorDiv : NumVal → NumVal → NumVal
  | .int a, .int b => .int (Int.fdiv a b)
  | a, b => .float ((⌊a.toRat / b.toRat⌋ : Int) : Rat)

/-- Python `%`: sign follows the divisor (`Int.fmod` / `a - b*⌊a/b⌋`). -/
def pyNumMod : NumVal → NumVal → NumVal
  | .int a, .int b => .int (Int.fmod a b)
  | a, b => .float (a.toRat - b.toRat * ((⌊a.toRat / b.toRat⌋ : Int) : Rat))

/-- Python `**`.  `none` models a raised `ZeroDivisionError` (zero base,
negative exponent).  A non-integral exponent produces an irrational float in
Python; that lies outside the rational model and is also mapped to `none`. -/
def pyNumPow (a b : NumVal) : Option NumVal :=
  let powInt (e : Int) : Option NumVal :=
    if 0 ≤ e then
      some (match a with
        | .int n => .int (n ^ e.toNat)
        | .float q => .float (q ^ e.toNat))
    else if a.toRat = 0 then none
    else some (.float (a.toRat ^ e))
  match b with
  | .int e => powInt e
  | .float qe => if qe.den = 1 then powInt qe.num else none

def pyNumEq (a b : NumVal) : Bool := a.toRat == b.toRat
def pyNumLt (a b : NumVal) : Bool := a.toRat < b.toRat
def pyNumLe (a b : NumVal) : Bool := a.toRat ≤ b.toRat

/-- Python `str()` of an `int`. -/
def pyIntStr (n : Int) : String := toString n

/-- Python `str()` of a `float`: the finite decimal expansion (binary floats
always have one; the 60-digit search bound covers every value built by the
statements below). -/
def pyFloatStr (q : Rat) : String :=
  if q.den = 1 then toString q.num ++ ".0"
  else
    match (List.range 60).find? (fun k => ((q * 10 ^ k : Rat)).den = 1) with
    | some k =>
        let aq : Rat := |q|
        let m : Nat := ((aq * 10 ^ k : Rat)).num.toNat
        let ip : Nat := m / 10 ^ k
        let fp : Nat := m % 10 ^ k
        let fs := toString fp
        let fs := ⟨List.replicate (k - fs.length) '0'⟩ ++ fs
        (if q < 0 then "-" else "") ++ toString ip ++ "." ++ fs
    | none => toString q.num ++ "/" ++ toString q.den

def pyNumStr : NumVal → String
  | .int n => pyIntStr n
  | .float q => pyFloatStr q

/-! ### parser.py — constant folding -/

namespace Parser

/-- `Parser._try_fold_binary`.  The Python `try`/`except` that turns an
arithmetic exception into "not folded" is the `Option` results of
`pyNumPow` and the explicit zero checks. -/
def tryFoldBinary (left : AST) (opType : TokenType) (right : AST) : Option AST :=
  match left, right with
  | .Number a, .Number b =>
      match opType with
      | .PLUS => some (.Number (pyNumAdd a b))
      | .MINUS => some (.Number (pyNumSub a b))
      | .MULTIPLY => some (.Number (pyNumMul a b))
      | .DIVIDE => if pyNumIsZero b then none else some (.Number (pyNumDiv a b))
      | .FLOOR_DIVIDE =>
          if pyNumIsZero b then none else some (.Number (pyNumFloorDiv a b))
      | .POWER => (pyNumPow a b).map .Number
      | .MODULO =>
          -- `a % 0` raises `ZeroDivisionError`, caught by the `except`
          if pyNumIsZero b then none else some (.Number (pyNumMod a b))
      | .EQUALS => some (.Boolean (pyNumEq a b))
      | .NOT_EQUALS => some (.Boolean (!pyNumEq a b))
      | .LESS_THAN => some (.Boolean (pyNumLt a b))
      | .GREATER_THAN => some (.Boolean (pyNumLt b a))
      | .LESS_THAN_EQUALS => some (.Boolean (pyNumLe a b))
      | .GREATER_THAN_EQUALS => some (.Boolean (pyNumLe b a))
      | _ => none
  | .String a, .String b =>
      match opType with
      | .PLUS => some (.String (a ++ b))
      | .EQUALS => some (.Boolean (a == b))
      | .NOT_EQUALS => some (.Boolean (a != b))
      | .LESS_THAN => some (.Boolean (decide (a < b)))
      | .GREATER_THAN => some (.Boolean (decide (b < a)))
      | .LESS_THAN_EQUALS => some (.Boolean (decide (a ≤ b)))
      | .GREATER_THAN_EQUALS => some (.Boolean (decide (b ≤ a)))
      | _ => none
  | .String a, .Number b =>
      if opType = .PLUS then some (.String (a ++ pyNumStr b)) else none
  | .Number a, .String b =>
      if opType = .PLUS then some (.String (pyNumStr a ++ b)) else none
  | .Boolean a, .Boolean b =>
      match opType with
      | .EQUALS => some (.Boolean (a == b))
      | .NOT_EQUALS => some (.Boolean (a != b))
      | _ => none
  | _, _ => none

/-- `Parser._make_binary`. -/
def makeBinary (left : AST) (opToken : Token) (right : AST) : AST :=
  match tryFoldBinary left opToken.type right with
  | some folded => folded
  | none => .BinaryOperation left opToken.type right

/-! The parser object state: the token list and the cursor.  The Python field
`current_token` equals `tokens[pos]` when in range and `None` past the end
(maintained by `__init__` and `eat`), so it is the derived `currentToken`. -/

structure PState where
  tokens : List Token
  pos : Nat
  deriving Repr

def initPState (tokens : List Token) : PState := { tokens := tokens, pos := 0 }

def currentToken (st : PState) : Option Token := st.tokens[st.pos]?

def peekTok (st : PState) (offset : Nat) : Option Token :=
  st.tokens[st.pos + offset]?

/-- Parser failures.  `noneTypeFault` models the Python `AttributeError` that
an unguarded `self.current_token.type` raises when the cursor ran past the
end; `fuelOut` is the out-of-fuel marker of the embedding. -/
inductive PErr where
  | syntaxError (msg : String) (line column : Nat)
  | noneTypeFault
  | fuelOut
  deriving DecidableEq, Repr

/-- `Parser.error`: uses the current token's position (raises on `None`). -/
def perror (st : PState) (msg : String) : PErr :=
  match currentToken st with
  | none => .noneTypeFault
  | some tok => .syntaxError msg tok.line tok.column

/-- `Parser.eat`. -/
def eat (st : PState) (tokenType : TokenType) : Except PErr PState :=
  match currentToken st with
  | none => .error .noneTypeFault
  | some tok =>
      if tok.type = tokenType then .ok { st with pos := st.pos + 1 }
      else .error (.syntaxError "Expected other token" tok.line tok.column)

/-- The guarded check `self.current_token and self.current_token.type == t`. -/
def curIs (st : PState) (tokenType : TokenType) : Bool :=
  match currentToken st with
  | some tok => tok.type = tokenType
  | none => false

/-- The unguarded read `self.current_token.type` (raises on `None`). -/
def curType (st : PState) : Except PErr TokenType :=
  match currentToken st with
  | none => .error .noneTypeFault
  | some tok => .ok tok.type

/-- The current token's `value` field as the string the parser expects. -/
def curValueStr (st : PState) : Except PErr String :=
  match currentToken st with
  | none => .error .noneTypeFault
  | some tok =>
      match tok.value with
      | .str s => .ok s
      | _ => .error (.syntaxError "token value is not a string" tok.line tok.column)

/-- Newline-skipping loops (`while self.current_token and ... NEWLINE`). -/
def skipNewlines (fuel : Nat) (st : PState) : PState :=
  match fuel with
  | 0 => st
  | fuel + 1 =>
      if curIs st .NEWLINE then skipNewlines fuel { st with pos := st.pos + 1 }
      else st

/-- The keyword-argument lookahead
`current_token.type == IDENTIFIER and peek() and peek().type == ASSIGN`
(the current token exists here: an unguarded `.type` read preceded). -/
def isKwStart (st : PState) : Bool :=
  curIs st .IDENTIFIER &&
    (match peekTok st 1 with
     | some p => p.type = .ASSIGN
     | none => false)

mutual

/-- `Parser.expression`. -/
def expression : Nat → PState → Except PErr (AST × PState)
  | 0, _ => .error .fuelOut
  | fuel + 1, st => range_expr fuel st

termination_by structural fuel => fuel
/-- `Parser.range_expr`. -/
def range_expr : Nat → PState → Except PErr (AST × PState)
  | 0, _ => .error .fuelOut
  | fuel + 1, st => do
      let (node, st) ← logic_or fuel st
      let t ← curType st
      if t = .DOT_DOT then
        let st ← eat st .DOT_DOT
        let (endNode, st) ← logic_or fuel st
        .ok (.RangeExpression node endNode, st)
      else
        .ok (node, st)

termination_by structural fuel => fuel
/-- `Parser.logic_or`. -/
def logic_or : Nat → PState → Except PErr (AST × PState)
  | 0, _ => .error .fuelOut
  | fuel + 1, st => do
      let (node, st) ← logic_and fuel st
      logicOrLoop fuel node st

termination_by structural fuel => fuel
def logicOrLoop : Nat → AST → PState → Except PErr (AST × PState)
  | 0, _, _ => .error .fuelOut
  | fuel + 1, node, st =>
      if curIs st .OR then do
        let st ← eat st .OR
        let (right, st) ← logic_and fuel st
        logicOrLoop fuel (.BinaryOperation node .OR right) st
      else .ok (node, st)

termination_by structural fuel => fuel
/-- `Parser.logic_and`. -/
def logic_and : Nat → PState → Except PErr (AST × PState)
  | 0, _ => .error .fuelOut
  | fuel + 1, st => do
      let (node, st) ← equality fuel st
      logicAndLoop fuel node st

termination_by structural fuel => fuel
def logicAndLoop : Nat → AST → PState → Except PErr (AST × PState)
  | 0, _, _ => .error .fuelOut
  | fuel + 1, node, st =>
      if curIs st .AND then do
        let st ← eat st .AND
        let (right, st) ← equality fuel st
        logicAndLoop fuel (.BinaryOperation node .AND right) st
      else .ok (node, st)

termination_by structural fuel => fuel
/-- `Parser.equality`. -/
def equality : Nat → PState → Except PErr (AST × PState)
  | 0, _ => .error .fuelOut
  | fuel + 1, st => do
      let (node, st) ← comparison fuel st
      equalityLoop fuel node st

termination_by structural fuel => fuel
def equalityLoop : Nat → AST → PState → Except PErr (AST × PState)
  | 0, _, _ => .error .fuelOut
  | fuel + 1, node, st =>
      if curIs st .EQUALS || curIs st .NOT_EQUALS then do
        match currentToken st with
        | none => .error .noneTypeFault
        | some op => do
            let st ← eat st op.type
            let (right, st) ← comparison fuel st
            equalityLoop fuel (makeBinary node op right) st
      else .ok (node, st)

termination_by structural fuel => fuel
/-- `Parser.comparison`. -/
def comparison : Nat → PState → Except PErr (AST × PState)
  | 0, _ => .error .fuelOut
  | fuel + 1, st => do
      let (node, st) ← term fuel st
      comparisonLoop fuel node st

termination_by structural fuel => fuel
def comparisonLoop : Nat → AST → PState → Except PErr (AST × PState)
  | 0, _, _ => .error .fuelOut
  | fuel + 1, node, st =>
      if curIs st .LESS_THAN || curIs st .GREATER_THAN ||
          curIs st .LESS_THAN_EQUALS || curIs st .GREATER_THAN_EQUALS then do
        match currentToken st with
        | none => .error .noneTypeFault
        | some op => do
            let st ← eat st op.type
            let (right, st) ← term fuel st
            comparisonLoop fuel (makeBinary node op right) st
      else .ok (node, st)

termination_by structural fuel => fuel
/-- `Parser.term`. -/
def term : Nat → PState → Except PErr (AST × PState)
  | 0, _ => .error .fuelOut
  | fuel + 1, st => do
      let (node, st) ← factor fuel st
      termLoop fuel node st

termination_by structural fuel => fuel
def termLoop : Nat → AST → PState → Except PErr (AST × PState)
  | 0, _, _ => .error .fuelOut
  | fuel + 1, node, st =>
      if curIs st .PLUS || curIs st .MINUS then do
        match currentToken st with
        | none => .error .noneTypeFault
        | some op => do
            let st ← eat st op.type
            let (right, st) ← factor fuel st
            termLoop fuel (makeBinary node op right) st
      else .ok (node, st)

termination_by structural fuel => fuel
/-- `Parser.factor`. -/
def factor : Nat → PState → Except PErr (AST × PState)
  | 0, _ => .error .fuelOut
  | fuel + 1, st => do
      let (node, st) ← unary fuel st
      factorLoop fuel node st

termination_by structural fuel => fuel
def factorLoop : Nat → AST → PState → Except PErr (AST × PState)
  | 0, _, _ => .error .fuelOut
  | fuel + 1, node, st =>
      if curIs st .MULTIPLY || curIs st .DIVIDE || curIs st .MODULO ||
          curIs st .FLOOR_DIVIDE || curIs st .POWER then do
        match currentToken st with
        | none => .error .noneTypeFault
        | some op => do
            let st ← eat st op.type
            let (right, st) ← unary fuel st
            factorLoop fuel (makeBinary node op right) st
      else .ok (node, st)

termination_by structural fuel => fuel
/-- `Parser.unary`.  Note: never folds its operand. -/
def unary : Nat → PState → Except PErr (AST × PState)
  | 0, _ => .error .fuelOut
  | fuel + 1, st => do
      let t ← curType st
      if t = .MINUS || t = .PLUS || t = .NOT then do
        let st ← eat st t
        let (expr, st) ← unary fuel st
        .ok (.UnaryOperation t expr, st)
      else if t = .AT then do
        let st ← eat st .AT
        let (target, st) ← call fuel st
        .ok (.Pointer target, st)
      else if t = .SPAWN then do
        let st ← eat st .SPAWN
        let (callNode, st) ← call fuel st
        .ok (.SpawnCall callNode, st)
      else call fuel st

termination_by structural fuel => fuel
/-- `Parser.call`. -/
def call : Nat → PState → Except PErr (AST × PState)
  | 0, _ => .error .fuelOut
  | fuel + 1, st => do
      let (node, st) ← primary fuel st
      callLoop fuel node st

termination_by structural fuel => fuel
def callLoop : Nat → AST → PState → Except PErr (AST × PState)
  | 0, _, _ => .error .fuelOut
  | fuel + 1, node, st =>
      if curIs st .LPAREN then do
        let st ← eat st .LPAREN
        let (args, kwargs, st) ← argument_list fuel st
        let st ← eat st .RPAREN
        let node :=
          match node with
          | .Identifier name => .FunctionCall name args kwargs
          | .MethodCall objectName methodName _ _ objectExpr =>
              .MethodCall objectName methodName args kwargs objectExpr
          | other => other
        callLoop fuel node st
      else if curIs st .DOT then do
        let st ← eat st .DOT
        let methodName ← curValueStr st
        let st ← eat st .IDENTIFIER
        match node with
        | .Identifier "Python" =>
            if curIs st .LPAREN then do
              let st ← eat st .LPAREN
              let (args, kwargs, st) ← argument_list fuel st
              let st ← eat st .RPAREN
              callLoop fuel (.PythonClassInstance methodName args kwargs) st
            else
              callLoop fuel (.PythonClassInstance methodName [] []) st
        | _ =>
            if curIs st .LPAREN then do
              let st ← eat st .LPAREN
              let (args, kwargs, st) ← argument_list fuel st
              let st ← eat st .RPAREN
              let node :=
                match node with
                | .Identifier name => .MethodCall (some name) methodName args kwargs none
                | other => .MethodCall none methodName args kwargs (some other)
              callLoop fuel node st
            else
              callLoop fuel (.AttributeAccess node methodName) st
      else if curIs st .LBRACKET then do
        let st ← eat st .LBRACKET
        let st := skipNewlines (fuel + 1) st
        let (indexExpr, st) ← expression fuel st
        let st := skipNewlines (fuel + 1) st
        let st ← eat st .RBRACKET
        callLoop fuel (.IndexAccess node indexExpr) st
      else .ok (node, st)

termination_by structural fuel => fuel
/-- `Parser.argument_list`. -/
def argument_list : Nat → PState →
    Except PErr (List AST × List (String × AST) × PState)
  | 0, _ => .error .fuelOut
  | fuel + 1, st => do
      let t ← curType st
      if t = .RPAREN then .ok ([], [], st)
      else do
        if isKwStart st then do
          let key ← curValueStr st
          let st ← eat st .IDENTIFIER
          let st ← eat st .ASSIGN
          let (valExpr, st) ← expression fuel st
          argumentListLoop fuel [] [(key, valExpr)] st
        else do
          let (first, st) ← expression fuel st
          argumentListLoop fuel [first] [] st

termination_by structural fuel => fuel
def argumentListLoop : Nat → List AST → List (String × AST) → PState →
    Except PErr (List AST × List (String × AST) × PState)
  | 0, _, _, _ => .error .fuelOut
  | fuel + 1, args, kwargs, st => do
      let t ← curType st
      if t = .COMMA then do
        let st ← eat st .COMMA
        if isKwStart st then do
          let key ← curValueStr st
          let st ← eat st .IDENTIFIER
          let st ← eat st .ASSIGN
          let (valExpr, st) ← expression fuel st
          argumentListLoop fuel args (kwargs ++ [(key, valExpr)]) st
        else do
          let (e, st) ← expression fuel st
          argumentListLoop fuel (args ++ [e]) kwargs st
      else .ok (args, kwargs, st)

termination_by structural fuel => fuel
/-- `Parser.primary`. -/
def primary : Nat → PState → Except PErr (AST × PState)
  | 0, _ => .error .fuelOut
  | fuel + 1, st =>
      match currentToken st with
      | none => .error .noneTypeFault
      | some token =>
          match token.type with
          | .NUMBER => do
              let st ← eat st .NUMBER
              match token.value with
              | .num v => .ok (.Number v, st)
              | _ => .error (.syntaxError "NUMBER token without numeric value"
                  token.line token.column)
          | .STRING => do
              let st ← eat st .STRING
              match token.value with
              | .str s => .ok (.String s, st)
              | _ => .error (.syntaxError "STRING token without string value"
                  token.line token.column)
          | .TRUE => do
              let st ← eat st .TRUE
              .ok (.Boolean true, st)
          | .FALSE => do
              let st ← eat st .FALSE
              .ok (.Boolean false, st)
          | .NULL => do
              let st ← eat st .NULL
              .ok (.Null, st)
          | .META => do
              let st ← eat st .META
              .ok (.Identifier "meta", st)
          | .IDENTIFIER => do
              let st ← eat st .IDENTIFIER
              match token.value with
              | .str s => .ok (.Identifier s, st)
              | _ => .error (.syntaxError "IDENTIFIER token without string value"
                  token.line token.column)
          | .LPAREN => do
              let st ← eat st .LPAREN
              let (expr, st) ← expression fuel st
              let st ← eat st .RPAREN
              .ok (expr, st)
          | .LBRACKET => list_literal fuel st
          | .LBRACE => dict_literal fuel st
          | _ => .error (perror st "Unexpected token")

termination_by structural fuel => fuel
/-- `Parser.list_literal`. -/
def list_literal : Nat → PState → Except PErr (AST × PState)
  | 0, _ => .error .fuelOut
  | fuel + 1, st => do
      let st ← eat st .LBRACKET
      let t ← curType st
      if t = .RBRACKET then do
        let st ← eat st .RBRACKET
        .ok (.ListLiteral [], st)
      else do
        let (firstExpr, st) ← expression fuel st
        let t ← curType st
        if t = .FOR then do
          let st ← eat st .FOR
          let varName ← curValueStr st
          let st ← eat st .IDENTIFIER
          let st ← eat st .IN
          let (iterable, st) ← expression fuel st
          let t ← curType st
          let (condition, st) ←
            if t = .IF then do
              let st ← eat st .IF
              let (cond, st) ← expression fuel st
              pure (some cond, st)
            else pure ((none : Option AST), st)
          let st ← eat st .RBRACKET
          .ok (.ListComprehension firstExpr varName iterable condition, st)
        else do
          let (elems, st) ← listElemsLoop fuel [firstExpr] st
          let st ← eat st .RBRACKET
          .ok (.ListLiteral elems, st)

termination_by structural fuel => fuel
def listElemsLoop : Nat → List AST → PState → Except PErr (List AST × PState)
  | 0, _, _ => .error .fuelOut
  | fuel + 1, elems, st => do
      let t ← curType st
      if t = .COMMA then do
        let st ← eat st .COMMA
        let (e, st) ← expression fuel st
        listElemsLoop fuel (elems ++ [e]) st
      else .ok (elems, st)

termination_by structural fuel => fuel
/-- `Parser.dict_literal`. -/
def dict_literal : Nat → PState → Except PErr (AST × PState)
  | 0, _ => .error .fuelOut
  | fuel + 1, st => do
      let st ← eat st .LBRACE
      let st := skipNewlines (fuel + 1) st
      if curIs st .RBRACE then do
        let st ← eat st .RBRACE
        .ok (.DictLiteral [], st)
      else do
        let (firstKey, st) ← expression fuel st
        let st ← eat st .COLON
        let (firstVal, st) ← expression fuel st
        if curIs st .FOR then do
          let st ← eat st .FOR
          let varName ← curValueStr st
          let st ← eat st .IDENTIFIER
          let st ← eat st .IN
          let (iterable, st) ← expression fuel st
          let (condition, st) ←
            if curIs st .IF then do
              let st ← eat st .IF
              let (cond, st) ← expression fuel st
              pure (some cond, st)
            else pure ((none : Option AST), st)
          let st := skipNewlines (fuel + 1) st
          let st ← eat st .RBRACE
          .ok (.DictComprehension firstKey firstVal varName iterable condition, st)
        else do
          let (pairs, st) ← dictPairsLoop fuel [(firstKey, firstVal)] st
          let st := skipNewlines (fuel + 1) st
          let st ← eat st .RBRACE
          .ok (.DictLiteral pairs, st)

termination_by structural fuel => fuel
def dictPairsLoop : Nat → List (AST × AST) → PState →
    Except PErr (List (AST × AST) × PState)
  | 0, _, _ => .error .fuelOut
  | fuel + 1, pairs, st =>
      if curIs st .COMMA then do
        let st ← eat st .COMMA
        let st := skipNewlines (fuel + 1) st
        if curIs st .RBRACE then .ok (pairs, st)
        else do
          let (k, st) ← expression fuel st
          let st ← eat st .COLON
          let (v, st) ← expression fuel st
          let st := skipNewlines (fuel + 1) st
          dictPairsLoop fuel (pairs ++ [(k, v)]) st
      else .ok (pairs, st)

termination_by structural fuel => fuel
end

end Parser

/-! ### interpreter.py — runtime values

Python runtime values of the modelled fragment.  A `Function` closure keeps
its declaration pieces, the id of its captured environment in the environment
heap, its bound `self` (the Python field holds `None` when unbound — AML
`null` and Python `None` are one and the same object, hence a `Value`, not an
`Option`), and the pre-extracted literal defaults.  `missingArg` is the
`MISSING_ARG` sentinel.  `builtin` covers the host callables bound in the
global environment (only `len` has modelled behaviour). -/

inductive Value where
  | int (n : Int)
  | float (q : Rat)
  | bool (b : Bool)
  | str (s : String)
  | none
  | list (xs : List Value)
  | function (name : String) (params : List (String × Option AST))
      (body : List AST) (localsCount : Nat) (environment : Nat)
      (boundSelf : Value) (defaultLiterals : List (String × Value))
  | builtin (name : String)
  | missingArg
  deriving Repr

/-- Python dict write `d[k] = v`: replace in place or append. -/
def assocSet {α : Type} (l : List (String × α)) (k : String) (v : α) :
    List (String × α) :=
  if l.any (fun p => p.1 == k) then
    l.map (fun p => if p.1 == k then (k, v) else p)
  else l ++ [(k, v)]

/-- Python dict read `d.get(k)` / `k in d`. -/
def assocGet? {α : Type} (l : List (String × α)) (k : String) : Option α :=
  (l.find? (fun p => p.1 == k)).map (fun p => p.2)

/-- Python set `add` (`list`-modelled, duplicates avoided). -/
def setAdd (l : List String) (k : String) : List String :=
  if l.contains k then l else l ++ [k]

/-! ### interpreter.py — `Environment`

Environments live in a heap (`IState.envs`), indexed by their id; `enclosing`
is a parent id.  `slots` filler entries are Python `None`, i.e. `Value.none`,
exactly as `Environment.__init__` and the growth code write them. -/

structure EnvData where
  values : List (String × Value)
  slots : List Value
  nameToIndex : List (String × Nat)
  constants : List String
  enclosing : Option Nat
  deriving Repr

instance : Inhabited EnvData :=
  ⟨{ values := [], slots := [], nameToIndex := [], constants := [],
     enclosing := Option.none }⟩

structure IState where
  envs : List EnvData
  cancelled : Bool
  deriving Repr

def getEnv (st : IState) (envId : Nat) : EnvData := st.envs.getD envId default

def setEnv (st : IState) (envId : Nat) (e : EnvData) : IState :=
  { st with envs := st.envs.set envId e }

/-- `Environment.__init__` via the heap: allocate a fresh environment. -/
def newEnv (st : IState) (enclosing : Option Nat) (size : Nat) : Nat × IState :=
  (st.envs.length,
   { st with
     envs := st.envs ++
       [{ values := [], slots := List.replicate size Value.none,
          nameToIndex := [], constants := [], enclosing := enclosing }] })

/-- `Environment.define`.  `index = -1` (the Python default) skips the slot
store. -/
def envDefine (st : IState) (envId : Nat) (name : String) (value : Value)
    (index : Int := -1) (isConst : Bool := false) : IState :=
  let e := getEnv st envId
  let e := if isConst then { e with constants := setAdd e.constants name } else e
  let e :=
    if index ≠ -1 then
      let idx := index.toNat
      let slots :=
        if e.slots.length ≤ idx then
          e.slots ++ List.replicate (idx - e.slots.length + 1) Value.none
        else e.slots
      { e with slots := slots.set idx value,
               nameToIndex := assocSet e.nameToIndex name idx }
    else e
  setEnv st envId { e with values := assocSet e.values name value }

/-- The ancestor walk `for _ in range(depth): curr = curr.enclosing`. -/
def envAncestor (st : IState) (envId : Nat) : Nat → Option Nat
  | 0 => some envId
  | depth + 1 =>
      match (getEnv st envId).enclosing with
      | some p => envAncestor st p depth
      | Option.none => Option.none

/-- `Environment.get_at`: missing parents and out-of-range slots give Python
`None`. -/
def envGetAt (st : IState) (envId : Nat) (depth index : Nat) : Value :=
  match envAncestor st envId depth with
  | Option.none => Value.none
  | some target =>
      match (getEnv st target).slots[index]? with
      | some v => v
      | Option.none => Value.none

/-- One chain step bound for walks over `enclosing` links (an acyclic heap
chain can never be longer than the heap). -/
def chainBound (st : IState) : Nat := st.envs.length + 1

/-- The walk of `Environment.try_get`; `none` is the `_MISSING` sentinel. -/
def envTryGetAux (st : IState) (name : String) : Nat → Nat → Option Value
  | 0, _ => Option.none
  | fuel + 1, envId =>
      let e := getEnv st envId
      match assocGet? e.values name with
      | some v => some v
      | Option.none =>
          match e.enclosing with
          | some p => envTryGetAux st name fuel p
          | Option.none => Option.none

def envTryGet (st : IState) (envId : Nat) (name : String) : Option Value :=
  envTryGetAux st name (chainBound st) envId

/-- `Environment.get`: raises `Undefined variable` when the walk fails. -/
def envGet (st : IState) (envId : Nat) (name : String) : Except String Value :=
  match envTryGet st envId name with
  | some v => .ok v
  | Option.none => .error ("Undefined variable '" ++ name ++ "'")

/-- The walk of `Environment.assign`: find the defining scope, enforce
constant-ness, write both stores. -/
def envAssignAux (st : IState) (name : String) (value : Value) :
    Nat → Nat → Except String IState
  | 0, _ => .error ("Undefined variable '" ++ name ++ "'")
  | fuel + 1, envId =>
      let e := getEnv st envId
      if (assocGet? e.values name).isSome then
        if e.constants.contains name then
          .error ("Cannot reassign constant '" ++ name ++ "'")
        else
          let e := { e with values := assocSet e.values name value }
          let e :=
            match assocGet? e.nameToIndex name with
            | some idx =>
                if idx < e.slots.length then { e with slots := e.slots.set idx value }
                else e
            | Option.none => e
          .ok (setEnv st envId e)
      else
        match e.enclosing with
        | some p => envAssignAux st name value fuel p
        | Option.none => .error ("Undefined variable '" ++ name ++ "'")

def envAssign (st : IState) (envId : Nat) (name : String) (value : Value) :
    Except String IState :=
  envAssignAux st name value (chainBound st) envId

/-! ### interpreter.py — value helpers -/

/-- `Interpreter.is_truthy`. -/
def isTruthy : Value → Bool
  | .none => false
  | .bool b => b
  | .int n => n != 0
  | .float q => q != 0
  | .str s => s.length > 0
  | .list xs => xs.length > 0
  | _ => true

/-- Python type names, for the error strings of the arithmetic fallbacks. -/
def pyTypeName : Value → String
  | .int _ => "int"
  | .float _ => "float"
  | .bool _ => "bool"
  | .str _ => "str"
  | .none => "NoneType"
  | .list _ => "list"
  | .function .. => "Function"
  | .builtin _ => "builtin_function_or_method"
  | .missingArg => "object"

mutual

/-- Python `==` over the modelled values.  Numbers (`bool` included — it is
an `int` subclass) compare numerically; lists element-wise.  Distinct
closures are unequal (identity semantics; never exercised structurally). -/
def pyEq : Value → Value → Bool
  | .int a, .int b => a == b
  | .int a, .float b => (a : Rat) == b
  | .int a, .bool b => a == (if b then 1 else 0)
  | .float a, .int b => a == (b : Rat)
  | .float a, .float b => a == b
  | .float a, .bool b => a == (if b then (1 : Rat) else 0)
  | .bool a, .int b => (if a then (1 : Int) else 0) == b
  | .bool a, .float b => (if a then (1 : Rat) else 0) == b
  | .bool a, .bool b => a == b
  | .str a, .str b => a == b
  | .none, .none => true
  | .list a, .list b => pyEqList a b
  | .builtin a, .builtin b => a == b
  | .missingArg, .missingArg => true
  | _, _ => false

def pyEqList : List Value → List Value → Bool
  | [], [] => true
  | a :: as', b :: bs' => pyEq a b && pyEqList as' bs'
  | _, _ => false

end

mutual

/-- Python `repr()` over the modelled values (string elements of containers
print quoted; escaping is not reproduced — no claim depends on it). -/
def pyRepr : Value → String
  | .int n => pyIntStr n
  | .float q => pyFloatStr q
  | .bool b => if b then "True" else "False"
  | .str s => "'" ++ s ++ "'"
  | .none => "None"
  | .list xs => "[" ++ pyReprList xs ++ "]"
  | .function name .. => "<function " ++ name ++ ">"
  | .builtin n => "<built-in function " ++ n ++ ">"
  | .missingArg => "<object object>"

def pyReprList : List Value → String
  | [] => ""
  | [x] => pyRepr x
  | x :: xs => pyRepr x ++ ", " ++ pyReprList xs

end

/-- Python `str()`. -/
def pyStr : Value → String
  | .str s => s
  | v => pyRepr v

/-- Python `int(...)` digit parse with an optional sign (the model omits
Python's whitespace stripping and `_` separators). -/
def parseIntStr? (cs : List Char) : Option Int :=
  let (sign, body) :=
    match cs with
    | '-' :: rest => ((-1 : Int), rest)
    | '+' :: rest => ((1 : Int), rest)
    | _ => ((1 : Int), cs)
  if body ≠ [] && body.all pyIsDigit then
    some (sign * (Lexer.digitsVal body : Int))
  else Option.none

/-- Python `float(...)` on a string containing a `'.'` (the model omits
exponent forms and whitespace stripping). -/
def parseFloatStr? (cs : List Char) : Option Rat :=
  let (sign, body) :=
    match cs with
    | '-' :: rest => ((-1 : Rat), rest)
    | '+' :: rest => ((1 : Rat), rest)
    | _ => ((1 : Rat), cs)
  let ip := body.takeWhile (fun c => c ≠ '.')
  let rest := (body.dropWhile (fun c => c ≠ '.')).drop 1
  if ip.all pyIsDigit && rest.all pyIsDigit && (ip ≠ [] || rest ≠ []) &&
      !rest.contains '.' then
    some (sign * ((Lexer.digitsVal ip : Rat) +
      (Lexer.digitsVal rest : Rat) / ((10 : Rat) ^ rest.length)))
  else Option.none

/-- `Interpreter._to_num`.  `bool` passes the `isinstance(v, (int, float))`
check (it is an `int` subclass) and then behaves as `0`/`1` in every
consumer, which the normalisation to `.int` preserves. -/
def toNum : Value → Option NumVal
  | .int n => some (.int n)
  | .float q => some (.float q)
  | .bool b => some (.int (if b then 1 else 0))
  | .str s =>
      if s.data.contains '.' then (parseFloatStr? s.data).map .float
      else (parseIntStr? s.data).map .int
  | _ => Option.none

/-- The `type(x) in (int, float)` test of the fast numeric path (an exact
type test: `bool` operands do NOT qualify). -/
def asFastNum : Value → Option NumVal
  | .int n => some (.int n)
  | .float q => some (.float q)
  | _ => Option.none

def numToValue : NumVal → Value
  | .int n => .int n
  | .float q => .float q

/-- Python `<` where the interpreter's generic comparison chain applies.
Only numbers and strings are modelled; other combinations report a
`TypeError`-style failure (list ordering is outside the modelled fragment).
-/
def pyLt (a b : Value) : Except String Bool :=
  match toNumCmp a, toNumCmp b with
  | some x, some y => .ok (x < y)
  | _, _ =>
      match a, b with
      | .str x, .str y => .ok (decide (x < y))
      | _, _ => .error ("'<' not supported between instances of '" ++
          pyTypeName a ++ "' and '" ++ pyTypeName b ++ "'")
where
  toNumCmp : Value → Option Rat
    | .int n => some (n : Rat)
    | .float q => some q
    | .bool b => some (if b then 1 else 0)
    | _ => Option.none

def pyLe (a b : Value) : Except String Bool :=
  match pyLt b a with
  | .ok r => .ok (!r)
  | .error e => .error e

/-- `isinstance(x, int)` (Python's `bool` is an `int`). -/
def asIntInstance : Value → Option Int
  | .int n => some n
  | .bool b => some (if b then 1 else 0)
  | _ => Option.none

/-- Python `s * n` / `list * n` repetition (non-positive count → empty). -/
def pyRepeat {α : Type} (xs : List α) (n : Int) : List α :=
  (List.range n.toNat).foldl (fun acc _ => acc ++ xs) []

/-! ### interpreter.py — `evaluate_BinaryOperation` after operand evaluation

`binaryOperation` is the body of `Interpreter.evaluate_BinaryOperation`
from the point where both operands are values (the `&&`/`||` short-circuit
happens before operand evaluation and lives in `evaluate`).  The first match
is the "Optimized path for numbers": note that a zero divisor there returns
`0`, it does not raise. -/

def binaryOperation (op : TokenType) (left right : Value) : Except String Value :=
  match asFastNum left, asFastNum right with
  | some a, some b =>
      match op with
      | .PLUS => .ok (numToValue (pyNumAdd a b))
      | .MINUS => .ok (numToValue (pyNumSub a b))
      | .MULTIPLY => .ok (numToValue (pyNumMul a b))
      | .DIVIDE =>
          if !pyNumIsZero b then .ok (numToValue (pyNumDiv a b)) else .ok (.int 0)
      | .LESS_THAN => .ok (.bool (pyNumLt a b))
      | .GREATER_THAN => .ok (.bool (pyNumLt b a))
      | .EQUALS => .ok (.bool (pyNumEq a b))
      | .NOT_EQUALS => .ok (.bool (!pyNumEq a b))
      | .LESS_THAN_EQUALS => .ok (.bool (pyNumLe a b))
      | .GREATER_THAN_EQUALS => .ok (.bool (pyNumLe b a))
      | .FLOOR_DIVIDE =>
          if !pyNumIsZero b then .ok (numToValue (pyNumFloorDiv a b))
          else .ok (.int 0)
      | .MODULO =>
          if !pyNumIsZero b then .ok (numToValue (pyNumMod a b)) else .ok (.int 0)
      | .POWER =>
          match pyNumPow a b with
          | some v => .ok (numToValue v)
          | Option.none => .error "0.0 cannot be raised to a negative power"
      | _ => slowBinary op left right
  | _, _ => slowBinary op left right
where
  /-- The generic `elif` chain below the fast path. -/
  slowBinary (op : TokenType) (left right : Value) : Except String Value :=
    match op with
    | .PLUS =>
        match left, right with
        | .str _, _ | _, .str _ => .ok (.str (pyStr left ++ pyStr right))
        | .list a, .list b => .ok (.list (a ++ b))
        | _, _ =>
            match toNum left, toNum right with
            | some ln, some rn => .ok (numToValue (pyNumAdd ln rn))
            | _, _ => .error ("Cannot add types '" ++ pyTypeName left ++
                "' and '" ++ pyTypeName right ++ "'")
    | .MINUS =>
        match toNum left, toNum right with
        | some ln, some rn => .ok (numToValue (pyNumSub ln rn))
        | _, _ => .error ("Cannot subtract '" ++ pyTypeName right ++
            "' from '" ++ pyTypeName left ++ "'")
    | .EQUALS => .ok (.bool (pyEq left right))
    | .NOT_EQUALS => .ok (.bool (!pyEq left right))
    | .LESS_THAN => (pyLt left right).map .bool
    | .GREATER_THAN => (pyLt right left).map .bool
    | .LESS_THAN_EQUALS => (pyLe left right).map .bool
    | .GREATER_THAN_EQUALS => (pyLe right left).map .bool
    | .MULTIPLY =>
        match left, right with
        | .str s, _ =>
            match asIntInstance right with
            | some n => .ok (.str ⟨pyRepeat s.data n⟩)
            | Option.none => multiplyNum left right
        | _, .str s =>
            match asIntInstance left with
            | some n => .ok (.str ⟨pyRepeat s.data n⟩)
            | Option.none => multiplyNum left right
        | .list xs, _ =>
            match asIntInstance right with
            | some n => .ok (.list (pyRepeat xs n))
            | Option.none => multiplyNum left right
        | _, .list xs =>
            match asIntInstance left with
            | some n => .ok (.list (pyRepeat xs n))
            | Option.none => multiplyNum left right
        | _, _ => multiplyNum left right
    | .DIVIDE =>
        match toNum left, toNum right with
        | some ln, some rn =>
            if pyNumIsZero rn then .error "Division by zero"
            else .ok (numToValue (pyNumDiv ln rn))
        | _, _ => .error ("Cannot divide types '" ++ pyTypeName left ++
            "' and '" ++ pyTypeName right ++ "'")
    | .MODULO =>
        match toNum left, toNum right with
        | some ln, some rn =>
            if pyNumIsZero rn then .error "Modulo by zero"
            else .ok (numToValue (pyNumMod ln rn))
        | _, _ => .error ("Cannot calculate modulo for types '" ++
            pyTypeName left ++ "' and '" ++ pyTypeName right ++ "'")
    | .FLOOR_DIVIDE =>
        match toNum left, toNum right with
        | some ln, some rn =>
            if pyNumIsZero rn then .error "Floor division by zero"
            else .ok (numToValue (pyNumFloorDiv ln rn))
        | _, _ => .error ("Cannot calculate floor division for types '" ++
            pyTypeName left ++ "' and '" ++ pyTypeName right ++ "'")
    | .POWER =>
        match toNum left, toNum right with
        | some ln, some rn =>
            match pyNumPow ln rn with
            | some v => .ok (numToValue v)
            | Option.none => .error "0.0 cannot be raised to a negative power"
        | _, _ => .error ("Cannot calculate power for types '" ++
            pyTypeName left ++ "' and '" ++ pyTypeName right ++ "'")
    | _ => .error "Unsupported binary operator"
  multiplyNum (left right : Value) : Except String Value :=
    match toNum left, toNum right with
    | some ln, some rn => .ok (numToValue (pyNumMul ln rn))
    | _, _ => .error ("Cannot multiply types '" ++ pyTypeName left ++
        "' and '" ++ pyTypeName right ++ "'")

/-- `Interpreter.evaluate_UnaryOperation` after operand evaluation. -/
def unaryOperation (op : TokenType) (right : Value) : Except String Value :=
  match op with
  | .MINUS =>
      match right with
      | .int n => .ok (.int (-n))
      | .float q => .ok (.float (-q))
      | .bool b => .ok (.int (-(if b then 1 else 0)))
      | v => .error ("bad operand type for unary -: '" ++ pyTypeName v ++ "'")
  | .PLUS =>
      match right with
      | .int n => .ok (.int n)
      | .float q => .ok (.float q)
      | .bool b => .ok (.int (if b then 1 else 0))
      | v => .error ("bad operand type for unary +: '" ++ pyTypeName v ++ "'")
  | .NOT => .ok (.bool (!isTruthy right))
  | _ => .error "Unknown unary operator"

/-! ### interpreter.py — `evaluate_RangeExpression` -/

/-- Python `int()` truncation towards zero (`Int` T-division). -/
def NumVal.trunc : NumVal → Int
  | .int n => n
  | .float q => q.num / (q.den : Int)

/-- Python `range(start, stop, step)` as a list. -/
def pyRangeList (start stop step : Int) : List Int :=
  let len : Nat :=
    if step > 0 then ((stop - start + step - 1).fdiv step).toNat
    else if step < 0 then ((start - stop - step - 1).fdiv (-step)).toNat
    else 0
  (List.range len).map (fun i => start + (i : Int) * step)

/-- `evaluate_RangeExpression` after evaluating both operand expressions. -/
def rangeValues (startV endV : Value) : Except String Value :=
  match toNum startV, toNum endV with
  | some s, some e =>
      let a := s.trunc
      let b := e.trunc
      let step : Int := if a ≤ b then 1 else -1
      .ok (.list ((pyRangeList a (b + step) step).map Value.int))
  | _, _ => .error "Range operator '..' requires numeric operands"

/-! ### interpreter.py — built-ins reachable from the modelled fragment -/

/-- The host `len` bound by `Interpreter.__init__`; other bound host
callables are present in the global environment but have no modelled
behaviour. -/
def applyBuiltin (name : String) (args : List Value)
    (kwargs : List (String × Value)) : Except String Value :=
  if name = "len" then
    match kwargs, args with
    | [], [x] =>
        match x with
        | .list xs => .ok (.int xs.length)
        | .str s => .ok (.int s.length)
        | v => .error ("object of type '" ++ pyTypeName v ++ "' has no len()")
    | [], _ => .error "len() takes exactly one argument"
    | _, _ => .error "len() takes no keyword arguments"
  else .error ("host callable '" ++ name ++ "' is outside the modelled fragment")

/-! ### interpreter.py — `Function.call` argument binding -/

/-- `Function.__init__`: pre-extract literal defaults (`Number`, `String`,
`Boolean`). -/
def defaultLiteralsOf (params : List (String × Option AST)) :
    List (String × Value) :=
  params.foldl
    (fun acc p =>
      match p with
      | (nm, some (.Number v)) => assocSet acc nm (numToValue v)
      | (nm, some (.String s)) => assocSet acc nm (.str s)
      | (nm, some (.Boolean b)) => assocSet acc nm (.bool b)
      | _ => acc) []

/-- The positional loop of `Function.call`: argument `i` lands in slot `i`
when a parameter with that position exists; extras bind nothing here. -/
def definePositional (st : IState) (envId : Nat) (paramNames : List String) :
    List Value → Nat → IState
  | [], _ => st
  | arg :: rest, i =>
      let st' :=
        match paramNames[i]? with
        | some nm => envDefine st envId nm arg (i : Int)
        | Option.none => st
      definePositional st' envId paramNames rest (i + 1)

/-- The fill loop of `Function.call`: parameters left without a positional
argument receive the `MISSING_ARG` sentinel at their slot. -/
def fillMissing (st : IState) (envId : Nat) :
    List String → Nat → IState
  | [], _ => st
  | nm :: rest, i =>
      fillMissing (envDefine st envId nm Value.missingArg (i : Int)) envId rest (i + 1)

/-- The keyword loop of `Function.call`. -/
def applyKwargs (st : IState) (envId : Nat) (paramNames : List String)
    (fnName : String) : List (String × Value) → Except (String × IState) IState
  | [] => .ok st
  | (key, val) :: rest =>
      if paramNames.contains key then
        let idx := paramNames.indexOf key
        match envGetAt st envId 0 idx with
        | .missingArg =>
            applyKwargs (envDefine st envId key val (idx : Int)) envId paramNames
              fnName rest
        | _ => .error ("Multiple values for argument '" ++ key ++ "'", st)
      else
        .error ("Unknown argument '" ++ key ++ "' for function '" ++ fnName ++
          "'", st)

/-- The `is None` test (Python `None` identity, one value in the model). -/
def Value.isNone : Value → Bool
  | .none => true
  | _ => false

/-- `Function.call` up to and including the definition of `args`: fresh
environment, optional `self` (by name only — the Python call passes no
`index`), positional arguments at their slots, `MISSING_ARG` fill, keyword
arguments, then the `args` list. -/
def bindCallEnv (st : IState) (fnEnvironment localsCount : Nat)
    (boundSelf : Value) (fnName : String) (params : List (String × Option AST))
    (arguments : List Value) (kwargs : List (String × Value)) :
    Except (String × IState) (Nat × IState) :=
  let (envId, st) := newEnv st (some fnEnvironment) localsCount
  let st :=
    if boundSelf.isNone then st
    else envDefine st envId "self" boundSelf
  let paramNames := params.map (fun p => p.1)
  let st := definePositional st envId paramNames arguments 0
  let st := fillMissing st envId (paramNames.drop arguments.length)
    arguments.length
  match applyKwargs st envId paramNames fnName kwargs with
  | .error e => .error e
  | .ok st => .ok (envId, envDefine st envId "args" (.list arguments))

/-! ### interpreter.py — the evaluator

Python control flow (`ReturnValue`, `BreakException`, `ContinueException`)
and runtime errors are all exceptions; `Exc` mirrors that.  `fuelOut` is the
out-of-fuel marker of the embedding, distinct from every Python behaviour.
An exception carries the state at raise time, since heap mutations survive
exception propagation. -/

inductive Exc where
  | rt (msg : String)
  | returnValue (v : Value)
  | brk
  | cont
  | fuelOut
  deriving Repr

abbrev EvalRes (α : Type) := Except (Exc × IState) (α × IState)

/-- The interpreter's start state: the global environment (id `0`) with the
host built-ins that the modelled fragment can reach.  (The real constructor
also binds `print`, `exit`, namespaces, signals, etc.; none are reachable in
the claims below.) -/
def initIState : IState :=
  { envs :=
      [{ values :=
           [("len", .builtin "len"), ("str", .builtin "str"),
            ("int", .builtin "int"), ("float", .builtin "float"),
            ("bool", .builtin "bool"), ("type", .builtin "type"),
            ("print", .builtin "print")],
         slots := [], nameToIndex := [], constants := [],
         enclosing := Option.none }],
    cancelled := false }

/-- `Interpreter.evaluate_Identifier` for nodes with no resolver output
(`resolved_index` defaults to `-1`, so the slot fast path is skipped):
`try_get` on the current chain, then on the global environment, else
`Undefined variable`.  (The `Signal` auto-deref touches no modelled value.)
-/
def evaluateIdentifier (st : IState) (envId : Nat) (name : String) :
    Except String Value :=
  match envTryGet st envId name with
  | some v => .ok v
  | Option.none =>
      match envTryGet st 0 name with
      | some v => .ok v
      | Option.none => .error ("Undefined variable '" ++ name ++ "'")

mutual

/-- `Interpreter.evaluate` over the modelled node kinds; nodes of the
fragment that no claim reaches report a distinguished failure. -/
def evaluate : Nat → IState → Nat → AST → EvalRes Value
  | 0, st, _, _ => .error (.fuelOut, st)
  | fuel + 1, st, envId, expr =>
      match expr with
      | .Number v => .ok (numToValue v, st)
      | .String s => .ok (.str s, st)
      | .Boolean b => .ok (.bool b, st)
      | .Null => .ok (.none, st)
      | .Identifier name =>
          match evaluateIdentifier st envId name with
          | .ok v => .ok (v, st)
          | .error msg => .error (.rt msg, st)
      | .BinaryOperation l op r =>
          if op = .AND then
            match evaluate fuel st envId l with
            | .error e => .error e
            | .ok (lv, st) =>
                if !isTruthy lv then .ok (.bool false, st)
                else
                  match evaluate fuel st envId r with
                  | .error e => .error e
                  | .ok (rv, st) => .ok (.bool (isTruthy rv), st)
          else if op = .OR then
            match evaluate fuel st envId l with
            | .error e => .error e
            | .ok (lv, st) =>
                if isTruthy lv then .ok (.bool true, st)
                else
                  match evaluate fuel st envId r with
                  | .error e => .error e
                  | .ok (rv, st) => .ok (.bool (isTruthy rv), st)
          else
            match evaluate fuel st envId l with
            | .error e => .error e
            | .ok (lv, st) =>
                match evaluate fuel st envId r with
                | .error e => .error e
                | .ok (rv, st) =>
                    match binaryOperation op lv rv with
                    | .ok v => .ok (v, st)
                    | .error msg => .error (.rt msg, st)
      | .UnaryOperation op e =>
          match evaluate fuel st envId e with
          | .error e' => .error e'
          | .ok (rv, st) =>
              match unaryOperation op rv with
              | .ok v => .ok (v, st)
              | .error msg => .error (.rt msg, st)
      | .RangeExpression a b =>
          match evaluate fuel st envId a with
          | .error e => .error e
          | .ok (sv, st) =>
              match evaluate fuel st envId b with
              | .error e => .error e
              | .ok (ev, st) =>
                  match rangeValues sv ev with
                  | .ok v => .ok (v, st)
                  | .error msg => .error (.rt msg, st)
      | .ListLiteral elems => evalListElems fuel st envId elems []
      | .Pointer target => evaluate fuel st envId target
      | .FunctionCall name argNodes kwargNodes =>
          match envGet st envId name with
          | .error msg => .error (.rt msg, st)
          | .ok callee =>
              match evalArgs fuel st envId argNodes [] with
              | .error e => .error e
              | .ok (args, st) =>
                  match evalKwargs fuel st envId kwargNodes [] with
                  | .error e => .error e
                  | .ok (kwargs, st) =>
                      match callee with
                      | .function fname params body localsCount fenv bself
                          dlits =>
                          callFunction fuel st envId fname params body
                            localsCount fenv bself dlits args kwargs
                      | .builtin bn =>
                          match applyBuiltin bn args kwargs with
                          | .ok v => .ok (v, st)
                          | .error msg => .error (.rt msg, st)
                      | _ => .error (.rt ("'" ++ name ++ "' is not a function"),
                          st)
      | _ => .error (.rt "node kind outside the modelled fragment", st)

termination_by structural fuel => fuel
/-- The element loop of `Interpreter.evaluate_ListLiteral`: a direct
`RangeExpression` element whose value is a list is spliced. -/
def evalListElems : Nat → IState → Nat → List AST → List Value → EvalRes Value
  | 0, st, _, _, _ => .error (.fuelOut, st)
  | _ + 1, st, _, [], acc => .ok (.list acc, st)
  | fuel + 1, st, envId, element :: rest, acc =>
      match evaluate fuel st envId element with
      | .error e => .error e
      | .ok (val, st) =>
          let acc :=
            match element, val with
            | .RangeExpression _ _, .list xs => acc ++ xs
            | _, _ => acc ++ [val]
          evalListElems fuel st envId rest acc

termination_by structural fuel => fuel
/-- The argument loop of `Interpreter.evaluate_FunctionCall`. -/
def evalArgs : Nat → IState → Nat → List AST → List Value → EvalRes (List Value)
  | 0, st, _, _, _ => .error (.fuelOut, st)
  | _ + 1, st, _, [], acc => .ok (acc, st)
  | fuel + 1, st, envId, a :: rest, acc =>
      match evaluate fuel st envId a with
      | .error e => .error e
      | .ok (v, st) => evalArgs fuel st envId rest (acc ++ [v])

termination_by structural fuel => fuel
/-- The keyword-argument loop of `Interpreter.evaluate_FunctionCall`. -/
def evalKwargs : Nat → IState → Nat → List (String × AST) →
    List (String × Value) → EvalRes (List (String × Value))
  | 0, st, _, _, _ => .error (.fuelOut, st)
  | _ + 1, st, _, [], acc => .ok (acc, st)
  | fuel + 1, st, envId, (k, a) :: rest, acc =>
      match evaluate fuel st envId a with
      | .error e => .error e
      | .ok (v, st) => evalKwargs fuel st envId rest (acc ++ [(k, v)])

termination_by structural fuel => fuel
/-- The defaults loop closing `Function.call`: any slot still holding
`MISSING_ARG` receives its cached literal default, or its default expression
evaluated in the caller's current environment, or raises
`Missing required argument`. -/
def applyDefaults : Nat → IState → Nat → Nat → String →
    List (String × Value) → List (String × Option AST) → Nat → EvalRes Unit
  | 0, st, _, _, _, _, _, _ => .error (.fuelOut, st)
  | _ + 1, st, _, _, _, _, [], _ => .ok ((), st)
  | fuel + 1, st, callerEnv, envId, fnName, dlits, (nm, dflt) :: rest, i =>
      match envGetAt st envId 0 i with
      | .missingArg =>
          match dflt with
          | some expr =>
              match assocGet? dlits nm with
              | some lit =>
                  applyDefaults fuel (envDefine st envId nm lit (i : Int))
                    callerEnv envId fnName dlits rest (i + 1)
              | Option.none =>
                  match evaluate fuel st callerEnv expr with
                  | .error e => .error e
                  | .ok (v, st) =>
                      applyDefaults fuel (envDefine st envId nm v (i : Int))
                        callerEnv envId fnName dlits rest (i + 1)
          | Option.none =>
              .error (.rt ("Missing required argument '" ++ nm ++
                "' for function '" ++ fnName ++ "'"), st)
      | _ => applyDefaults fuel st callerEnv envId fnName dlits rest (i + 1)

termination_by structural fuel => fuel
/-- `Function.call`: bind, apply defaults, run the body, catch
`ReturnValue`. -/
def callFunction : Nat → IState → Nat → String →
    List (String × Option AST) → List AST → Nat → Nat → Value →
    List (String × Value) → List Value → List (String × Value) → EvalRes Value
  | 0, st, _, _, _, _, _, _, _, _, _, _ => .error (.fuelOut, st)
  | fuel + 1, st, callerEnv, fnName, params, body, localsCount, fenv, bself,
      dlits, arguments, kwargs =>
      match bindCallEnv st fenv localsCount bself fnName params arguments
          kwargs with
      | .error (msg, st) => .error (.rt msg, st)
      | .ok (envId, st) =>
          match applyDefaults fuel st callerEnv envId fnName dlits params 0 with
          | .error e => .error e
          | .ok ((), st) =>
              match executeStmts fuel st envId body with
              | .ok ((), st) => .ok (.none, st)
              | .error (.returnValue v, st) => .ok (v, st)
              | .error e => .error e

termination_by structural fuel => fuel
/-- `Interpreter.execute` over the modelled statement kinds. -/
def execute : Nat → IState → Nat → AST → EvalRes Unit
  | 0, st, _, _ => .error (.fuelOut, st)
  | fuel + 1, st, envId, stmt =>
      match stmt with
      | .VarDeclaration name value =>
          -- no resolver ran, so `resolved_index` defaults to `-1`
          match evaluate fuel st envId value with
          | .error e => .error e
          | .ok (v, st) => .ok ((), envDefine st envId name v (-1))
      | .ConstDeclaration name value =>
          match evaluate fuel st envId value with
          | .error e => .error e
          | .ok (v, st) => .ok ((), envDefine st envId name v (-1) true)
      | .Assignment name value targetExpr =>
          match evaluate fuel st envId value with
          | .error e => .error e
          | .ok (v, st) =>
              match targetExpr with
              | some _ =>
                  .error (.rt "assignment target outside the modelled fragment",
                    st)
              | Option.none =>
                  -- `resolved_index` is `-1`: the slot fast path is skipped,
                  -- the `Signal` probe touches no modelled value, and
                  -- `Environment.assign` runs.
                  match envAssign st envId name v with
                  | .ok st => .ok ((), st)
                  | .error msg => .error (.rt msg, st)
      | .ReturnStatement valueNode =>
          match valueNode with
          | Option.none => .error (.returnValue .none, st)
          | some node =>
              match evaluate fuel st envId node with
              | .error e => .error e
              | .ok (v, st) => .error (.returnValue v, st)
      | .RaiseStatement e =>
          match evaluate fuel st envId e with
          | .error e' => .error e'
          | .ok (v, st) => .error (.rt (pyStr v), st)
      | .BreakStatement => .error (.brk, st)
      | .ContinueStatement => .error (.cont, st)
      | .TryCatchStatement tryBody catchBody errorVar =>
          match executeStmts fuel st envId tryBody with
          | .ok ((), st) => .ok ((), st)
          | .error (.brk, st) => .error (.brk, st)
          | .error (.cont, st) => .error (.cont, st)
          | .error (.returnValue v, st) => .error (.returnValue v, st)
          | .error (.fuelOut, st) => .error (.fuelOut, st)
          | .error (.rt msg, st) =>
              if catchBody.isEmpty then .ok ((), st)
              else
                let (catchEnvId, st) := newEnv st (some envId) 0
                let varName :=
                  match errorVar with
                  | some s => if s = "" then "error" else s
                  | Option.none => "error"
                let st := envDefine st catchEnvId varName (.str msg) (-1)
                executeStmts fuel st catchEnvId catchBody
      | .FunctionDeclaration name params body nsPath localsCount =>
          match nsPath with
          | [] =>
              let fn : Value := .function name params body localsCount envId
                .none (defaultLiteralsOf params)
              .ok ((), envDefine st envId name fn (-1))
          | _ =>
              .error (.rt "dotted function declaration outside the modelled fragment",
                st)
      | .FunctionCall _ _ _ =>
          -- `execute_FunctionCall` delegates to `evaluate` (on the same
          -- node; the embedding charges one fuel step)
          match evaluate fuel st envId stmt with
          | .error e => .error e
          | .ok (_, st) => .ok ((), st)
      | _ => .error (.rt "statement kind outside the modelled fragment", st)

termination_by structural fuel => fuel
/-- The statement loops of `Interpreter.execute_block` and of the
`try` body: run in order, stop on cancellation. -/
def executeStmts : Nat → IState → Nat → List AST → EvalRes Unit
  | 0, st, _, _ => .error (.fuelOut, st)
  | _ + 1, st, _, [] => .ok ((), st)
  | fuel + 1, st, envId, s :: rest =>
      if st.cancelled then .ok ((), st)
      else
        match execute fuel st envId s with
        | .error e => .error e
        | .ok ((), st) => executeStmts fuel st envId rest

termination_by structural fuel => fuel
end

/-! ### interpreter.py — `Signal`

A `Signal` holds its current value and its subscriber set; effects are
identified by ids (Python object identity), and `list(self._subscribers)`
becomes the stored list.  `Signal.set` either does nothing (`==` values) or
stores the new value and invokes `run` on each subscriber other than the
interpreter's currently executing effect; `signalSet` returns the updated
signal together with the ids whose `run` it invokes, in iteration order. -/

structure Signal where
  value : Value
  subscribers : List Nat
  deriving Repr

def signalSet (currentEffect : Option Nat) (sig : Signal) (newValue : Value) :
    Signal × List Nat :=
  if pyEq sig.value newValue then
    -- `self._value != new_value` is false: no store, no runs
    (sig, [])
  else
    ({ sig with value := newValue },
     sig.subscribers.filter (fun e => decide (some e ≠ currentEffect)))

/-! ### convenient projections used by the concrete statements below -/

/-- Value of a successful evaluation. -/
def resultValue (r : EvalRes Value) : Option Value :=
  match r with
  | .ok (v, _) => some v
  | .error _ => Option.none

/-- Run a top-level statement list in the interpreter's start state, then
evaluate one expression in the global environment. -/
def evalInProgram (fuel : Nat) (stmts : List AST) (e : AST) : Option Value :=
  match executeStmts fuel initIState 0 stmts with
  | .ok ((), st) => resultValue (evaluate fuel st 0 e)
  | .error _ => Option.none

/-- Run a top-level statement list and read a global name afterwards. -/
def runThenGet (fuel : Nat) (stmts : List AST) (name : String) : Option Value :=
  match executeStmts fuel initIState 0 stmts with
  | .ok ((), st) => envTryGet st 0 name
  | .error _ => Option.none

/-- Runtime error message of a failed top-level run. -/
def runErrMsg (fuel : Nat) (stmts : List AST) : Option String :=
  match executeStmts fuel initIState 0 stmts with
  | .error (.rt msg, _) => some msg
  | _ => Option.none

/-- Environment produced by a successful `bindCallEnv`. -/
def bindEnvData (r : Except (String × IState) (Nat × IState)) : Option EnvData :=
  match r with
  | .ok (envId, st) => some (getEnv st envId)
  | .error _ => Option.none

/-! ### claim-support definitions -/

/-- Spec-side inclusive enumeration `[a, a+step, …, b]`, `step = 1` when
`a ≤ b` and `-1` otherwise, written from the specification's words for
comparison with the interpreter's `rangeValues`. -/
def inclusiveRange (a b : Int) : List Int :=
  if a ≤ b then (List.range (b - a + 1).toNat).map (fun i => a + (i : Int))
  else (List.range (a - b + 1).toNat).map (fun i => a - (i : Int))

/-- Literal operand test of the folding claim (`Number`/`String`/`Boolean`/
`Null`). -/
def isLit : AST → Bool
  | .Number _ => true
  | .String _ => true
  | .Boolean _ => true
  | .Null => true
  | _ => false

mutual

/-- Folding invariant over a parsed tree: every `BinaryOperation` whose two
operands are literals is one that `Parser._try_fold_binary` declines to fold
(statement nodes cannot be produced by the expression grammar and are not
constrained). -/
def foldOK : AST → Bool
  | .ListLiteral es => foldOKList es
  | .ListComprehension e _ it c => foldOK e && foldOK it && foldOKOpt c
  | .DictLiteral ps => foldOKPairs ps
  | .DictComprehension k v _ it c =>
      foldOK k && foldOK v && foldOK it && foldOKOpt c
  | .IndexAccess t i => foldOK t && foldOK i
  | .AttributeAccess t _ => foldOK t
  | .BinaryOperation l op r =>
      (if isLit l && isLit r then (Parser.tryFoldBinary l op r).isNone
       else true) && foldOK l && foldOK r
  | .UnaryOperation _ e => foldOK e
  | .RangeExpression a b => foldOK a && foldOK b
  | .Pointer t => foldOK t
  | .FunctionCall _ args kwargs => foldOKList args && foldOKKw kwargs
  | .MethodCall _ _ args kwargs oe =>
      foldOKList args && foldOKKw kwargs && foldOKOpt oe
  | .SpawnCall c => foldOK c
  | .PythonClassInstance _ args kwargs => foldOKList args && foldOKKw kwargs
  | _ => true

def foldOKList : List AST → Bool
  | [] => true
  | e :: rest => foldOK e && foldOKList rest

def foldOKOpt : Option AST → Bool
  | Option.none => true
  | some e => foldOK e

def foldOKPairs : List (AST × AST) → Bool
  | [] => true
  | (k, v) :: rest => foldOK k && foldOK v && foldOKPairs rest

def foldOKKw : List (String × AST) → Bool
  | [] => true
  | (_, e) :: rest => foldOK e && foldOKKw rest

end

/-- Lexer state invariant: the line counter never drops below `1`, and the
column counter is `0` exactly while the cursor rests on a newline
character. -/
def lexInv (s : LexState) : Prop :=
  1 ≤ s.line ∧ (s.column = 0 → Lexer.currentChar s = some '\n')

/-- Position property every emitted token satisfies: `line ≥ 1` always, and
`column ≥ 1` for every token other than `NEWLINE`. -/
def tokenPosOK (t : Token) : Prop :=
  1 ≤ t.line ∧ (t.type ≠ .NEWLINE → 1 ≤ t.column)

/-- The scenario function of claim C2:
`func f(a, b = 10) { return a + b + len(args) }`. -/
def c2Decl : AST :=
  .FunctionDeclaration "f" [("a", Option.none), ("b", some (.Number (.int 10)))]
    [.ReturnStatement (some (.BinaryOperation
      (.BinaryOperation (.Identifier "a") .PLUS (.Identifier "b"))
      .PLUS (.FunctionCall "len" [.Identifier "args"] [])))]
    [] 0

/-! ## Claim C1 — division / modulo / floor division by zero -/

/-- C1 counterexample: with two numeric operands and divisor `0`, the fast
numeric path of `evaluate_BinaryOperation` returns the value `0` for `/`,
`%` and `//`; it does not fail, contradicting the claim that such an
evaluation always fails with a `DivisionByZero`-family error. -/
theorem c1_counterexample :
    binaryOperation .DIVIDE (.int 1) (.int 0) = .ok (.int 0) ∧
    binaryOperation .MODULO (.int 1) (.int 0) = .ok (.int 0) ∧
    binaryOperation .FLOOR_DIVIDE (.int 1) (.int 0) = .ok (.int 0) := by
  refine ⟨rfl, rfl, rfl⟩

/-- C1 (amended): for operands on the fast numeric path (`int`/`float`, not
`bool`), a zero right operand makes `/`, `%` and `//` return the integer `0`
instead of failing; the `Division by zero` / `Modulo by zero` /
`Floor division by zero` errors are raised only on the coercion path, which
numeric operands never reach. -/
theorem c1_amended (op : TokenType) (a b : Value) (na nb : NumVal)
    (hop : op = .DIVIDE ∨ op = .MODULO ∨ op = .FLOOR_DIVIDE)
    (ha : asFastNum a = some na) (hb : asFastNum b = some nb)
    (hz : pyNumIsZero nb = true) :
    binaryOperation op a b = .ok (.int 0) := by
  unfold binaryOperation
  rw [ha, hb]
  rcases hop with h | h | h <;> subst h <;> simp [hz]

/-- C1 witness: `7.5 / 0` evaluates to `0`. -/
theorem c1_amended_witness :
    binaryOperation .DIVIDE (.float (15 / 2)) (.int 0) = .ok (.int 0) :=
  c1_amended .DIVIDE (.float (15 / 2)) (.int 0) (.float (15 / 2)) (.int 0)
    (Or.inl rfl) rfl rfl (by decide)

/-! ## Claim C2 — defaults, keywords, and the `args` list -/

/-- C2 counterexample: `args` receives all positional arguments, so `f(1)`
returns `1 + 10 + len([1]) = 12`, not the claimed `11`. -/
theorem c2_counterexample :
    evalInProgram 64 [c2Decl] (.FunctionCall "f" [.Number (.int 1)] []) =
      some (.int 12) ∧
    some (Value.int 12) ≠ some (Value.int 11) := by
  exact ⟨by rfl, by simp⟩

/-- C2 (amended): since `args` lists every positional argument, `f(1)`
returns `12`, `f(1, b = 2)` returns `4`, and `f(1, 2, 3, 4)` returns `7`. -/
theorem c2_amended :
    evalInProgram 64 [c2Decl] (.FunctionCall "f" [.Number (.int 1)] []) =
      some (.int 12) ∧
    evalInProgram 64 [c2Decl]
        (.FunctionCall "f" [.Number (.int 1)] [("b", .Number (.int 2))]) =
      some (.int 4) ∧
    evalInProgram 64 [c2Decl]
        (.FunctionCall "f" [.Number (.int 1), .Number (.int 2),
          .Number (.int 3), .Number (.int 4)] []) =
      some (.int 7) := by
  refine ⟨by rfl, by rfl, by rfl⟩

/-! ## Claim C4 — `const` rebinding -/

/-- C4 counterexample: `const x = 1` followed by `var x = 2` in the same
scope does not fail — `Environment.define` never consults `constants` — and
afterwards `x` holds `2`; the claim asserted this redeclaration fails. -/
theorem c4_counterexample :
    runThenGet 16 [.ConstDeclaration "x" (.Number (.int 1)),
      .VarDeclaration "x" (.Number (.int 2))] "x" = some (.int 2) := by
  rfl

/-- C4 (amended): after `const x = 1`, the assignment `x = 2` fails with the
constant-reassignment error, while the redeclaration `var x = 2` in the same
scope succeeds and silently rebinds `x` to `2`. -/
theorem c4_amended :
    runErrMsg 16 [.ConstDeclaration "x" (.Number (.int 1)),
      .Assignment "x" (.Number (.int 2)) Option.none] =
      some "Cannot reassign constant 'x'" ∧
    runThenGet 16 [.ConstDeclaration "x" (.Number (.int 1)),
      .VarDeclaration "x" (.Number (.int 2))] "x" = some (.int 2) := by
  refine ⟨by rfl, by rfl⟩

/-! ## Claim C7 — `Signal.set` -/

/-- C7: setting a signal to a `==`-equal value stores nothing and runs no
subscriber; setting it to a different value stores the new value, keeps the
subscriber set, and invokes exactly the subscribed effects other than the
currently executing one. -/
theorem c7_signal_set (cur : Option Nat) (sig : Signal) (v : Value) :
    (pyEq sig.value v = true → signalSet cur sig v = (sig, [])) ∧
    (pyEq sig.value v = false →
      (signalSet cur sig v).1.value = v ∧
      (signalSet cur sig v).1.subscribers = sig.subscribers ∧
      ∀ e, e ∈ (signalSet cur sig v).2 ↔
        (e ∈ sig.subscribers ∧ some e ≠ cur)) := by
  constructor
  · intro h
    simp [signalSet, h]
  · intro h
    refine ⟨by simp [signalSet, h], by simp [signalSet, h], ?_⟩
    intro e
    simp [signalSet, h, List.mem_filter]

/-- C7 witness: a signal holding `0` with subscribers `[3, 5]`, effect `5`
currently running, set to `1`: value stored, only effect `3` runs; set to
`0`: nothing runs. -/
theorem c7_signal_set_witness :
    (signalSet (some 5) ⟨.int 0, [3, 5]⟩ (.int 0) = (⟨.int 0, [3, 5]⟩, [])) ∧
    (signalSet (some 5) ⟨.int 0, [3, 5]⟩ (.int 1)).1.value = .int 1 ∧
    (3 ∈ (signalSet (some 5) ⟨.int 0, [3, 5]⟩ (.int 1)).2 ∧
      ¬ 5 ∈ (signalSet (some 5) ⟨.int 0, [3, 5]⟩ (.int 1)).2) := by
  have h := c7_signal_set (some 5) ⟨.int 0, [3, 5]⟩ (.int 0)
  have h' := c7_signal_set (some 5) ⟨.int 0, [3, 5]⟩ (.int 1)
  refine ⟨h.1 (by decide), (h'.2 (by decide)).1, ?_, ?_⟩
  · exact ((h'.2 (by decide)).2.2 3).mpr ⟨by decide, by decide⟩
  · intro hmem
    exact absurd (((h'.2 (by decide)).2.2 5).mp hmem).2 (by decide)

/-! ## Claim C10 — `&&` / `||` always yield a Bool and short-circuit -/

/-- C10: `a && b` and `a || b` always evaluate to a `Bool` (the truthiness
of the deciding operand), never the operand itself — `1 && 2` gives `true`,
not `2` — and the right operand is not evaluated when the left decides: a
falsy left makes `&&` return `false` and a truthy left makes `||` return
`true` whatever the right operand expression is. -/
theorem c10_logical_ops :
    (∀ fuel st envId l r v st',
        evaluate (fuel + 1) st envId (.BinaryOperation l .AND r) =
          .ok (v, st') → ∃ b, v = .bool b) ∧
    (∀ fuel st envId l r v st',
        evaluate (fuel + 1) st envId (.BinaryOperation l .OR r) =
          .ok (v, st') → ∃ b, v = .bool b) ∧
    (∀ fuel st envId l lv st', evaluate fuel st envId l = .ok (lv, st') →
        isTruthy lv = false → ∀ r,
        evaluate (fuel + 1) st envId (.BinaryOperation l .AND r) =
          .ok (.bool false, st')) ∧
    (∀ fuel st envId l lv st', evaluate fuel st envId l = .ok (lv, st') →
        isTruthy lv = true → ∀ r,
        evaluate (fuel + 1) st envId (.BinaryOperation l .OR r) =
          .ok (.bool true, st')) ∧
    resultValue (evaluate 16 initIState 0
      (.BinaryOperation (.Number (.int 1)) .AND (.Number (.int 2)))) =
      some (.bool true) := by
  refine ⟨?_, ?_, ?_, ?_, by rfl⟩
  · intro fuel st envId l r v st' h
    simp only [evaluate] at h
    rcases hl : evaluate fuel st envId l with e | ⟨lv, st1⟩ <;>
      simp [hl] at h
    by_cases ht : isTruthy lv
    · simp [ht] at h
      rcases hr : evaluate fuel st1 envId r with e | ⟨rv, st2⟩ <;>
        simp [hr] at h
      exact ⟨isTruthy rv, h.1.symm⟩
    · simp [ht] at h
      exact ⟨false, h.1.symm⟩
  · intro fuel st envId l r v st' h
    simp only [evaluate] at h
    rcases hl : evaluate fuel st envId l with e | ⟨lv, st1⟩ <;>
      simp [hl] at h
    by_cases ht : isTruthy lv
    · simp [ht] at h
      exact ⟨true, h.1.symm⟩
    · simp [ht] at h
      rcases hr : evaluate fuel st1 envId r with e | ⟨rv, st2⟩ <;>
        simp [hr] at h
      exact ⟨isTruthy rv, h.1.symm⟩
  · intro fuel st envId l lv st' hl ht r
    simp only [evaluate]
    simp [hl, ht]
  · intro fuel st envId l lv st' hl ht r
    simp only [evaluate]
    simp [hl, ht]

/-- C10 witness: `0 && boom()` short-circuits to `false` even though `boom`
is undefined, applied through the theorem at a concrete input. -/
theorem c10_witness :
    evaluate 11 initIState 0 (.BinaryOperation (.Number (.int 0)) .AND
      (.FunctionCall "boom" [] [])) = .ok (.bool false, initIState) :=
  c10_logical_ops.2.2.1 10 initIState 0 (.Number (.int 0)) (.int 0)
    initIState (by rfl) (by rfl) (.FunctionCall "boom" [] [])

/-! ## Environment-heap helper lemmas (shared) -/

theorem setEnv_length (st : IState) (i : Nat) (e : EnvData) :
    (setEnv st i e).envs.length = st.envs.length := by
  simp [setEnv]

theorem getEnv_setEnv_self (st : IState) (i : Nat) (e : EnvData)
    (h : i < st.envs.length) : getEnv (setEnv st i e) i = e := by
  simp [getEnv, setEnv, List.getD, List.getElem?_set_self, h]

theorem newEnv_fst (st : IState) (parent : Option Nat) (size : Nat) :
    (newEnv st parent size).1 = st.envs.length := rfl

theorem newEnv_length (st : IState) (parent : Option Nat) (size : Nat) :
    (newEnv st parent size).2.envs.length = st.envs.length + 1 := by
  simp [newEnv]

theorem getEnv_newEnv (st : IState) (parent : Option Nat) (size : Nat) :
    getEnv (newEnv st parent size).2 st.envs.length =
      { values := [], slots := List.replicate size Value.none,
        nameToIndex := [], constants := [], enclosing := parent } := by
  simp [newEnv, getEnv, List.getD]

theorem envDefine_length (st : IState) (i : Nat) (n : String) (v : Value)
    (idx : Int) (c : Bool) :
    (envDefine st i n v idx c).envs.length = st.envs.length := by
  unfold envDefine
  apply setEnv_length

/-- Effect of `Environment.define` on its own environment record. -/
theorem getEnv_envDefine_self (st : IState) (i : Nat) (n : String) (v : Value)
    (idx : Int) (c : Bool) (h : i < st.envs.length) :
    getEnv (envDefine st i n v idx c) i =
      (let e := getEnv st i
       let e := if c then { e with constants := setAdd e.constants n } else e
       let e :=
         if idx ≠ -1 then
           let j := idx.toNat
           let slots :=
             if e.slots.length ≤ j then
               e.slots ++ List.replicate (j - e.slots.length + 1) Value.none
             else e.slots
           { e with slots := slots.set j v,
                    nameToIndex := assocSet e.nameToIndex n j }
         else e
       { e with values := assocSet e.values n v }) := by
  unfold envDefine
  exact getEnv_setEnv_self _ _ _ h

/-! ## Association-list lemmas (shared) -/

theorem assocSet_pred_comp {α : Type} (k k' : String) (v : α) :
    ((fun q : String × α => q.1 == k') ∘
      (fun p : String × α => if p.1 == k then (k, v) else p)) =
      (fun p : String × α => if p.1 == k then (k == k') else p.1 == k') := by
  funext p
  by_cases hp : p.1 = k
  · simp [hp]
  · simp [hp]

theorem assocGet?_assocSet_self {α : Type} (l : List (String × α)) (k : String)
    (v : α) : assocGet? (assocSet l k v) k = some v := by
  rw [assocSet]
  by_cases hany : l.any (fun p => p.1 == k)
  · rw [if_pos hany, assocGet?, List.find?_map, assocSet_pred_comp]
    have hpred :
        (fun p : String × α => if p.1 == k then (k == k) else p.1 == k) =
          (fun p : String × α => p.1 == k) := by
      funext p
      by_cases hp : p.1 = k <;> simp [hp]
    rw [hpred]
    obtain ⟨p₀, hmem, hp₀⟩ := List.any_eq_true.mp hany
    cases hfind : l.find? (fun p => p.1 == k) with
    | none =>
        exact absurd (List.find?_eq_none.mp hfind p₀ hmem) (by simp_all)
    | some q =>
        have hqp := List.find?_some hfind
        have hq : q.1 = k := by simpa using hqp
        simp [hq]
  · rw [if_neg hany, assocGet?, List.find?_append]
    have hnone : l.find? (fun p : String × α => p.1 == k) = none := by
      rw [List.find?_eq_none]
      intro x hx
      simp only [List.any_eq_true] at hany
      simp only [Bool.not_eq_true]
      by_contra hxk
      exact hany ⟨x, hx, by simpa using hxk⟩
    simp [hnone]

theorem assocGet?_assocSet_ne {α : Type} (l : List (String × α))
    (k k' : String) (v : α) (h : ¬ k' = k) :
    assocGet? (assocSet l k v) k' = assocGet? l k' := by
  rw [assocSet]
  by_cases hany : l.any (fun p => p.1 == k)
  · rw [if_pos hany, assocGet?, List.find?_map, assocSet_pred_comp]
    have hkk' : (k == k') = false := by
      simp only [beq_eq_false_iff_ne, ne_eq]
      intro he
      exact h he.symm
    have hpred :
        (fun p : String × α => if p.1 == k then (k == k') else p.1 == k') =
          (fun p : String × α => p.1 == k') := by
      funext p
      by_cases hp : p.1 = k
      · have hp' : (p.1 == k') = false := by
          simp only [beq_eq_false_iff_ne, ne_eq, hp]
          intro he
          exact h he.symm
        simp [hp, hkk', hp']
      · simp [hp]
    rw [hpred, assocGet?]
    cases hfind : l.find? (fun p : String × α => p.1 == k') with
    | none => simp
    | some q =>
        have hqk' := List.find?_some hfind
        have hqk : ¬ q.1 = k := by
          have hq : q.1 = k' := by simpa using hqk'
          rw [hq]
          intro he
          exact h he
        simp [hqk]
  · rw [if_neg hany, assocGet?, assocGet?, List.find?_append]
    have hsing : List.find? (fun p : String × α => p.1 == k') [(k, v)] = none := by
      have hkk : (k == k') = false := by
        simp only [beq_eq_false_iff_ne, ne_eq]
        intro he
        exact h he.symm
      simp [List.find?, hkk]
    cases hfind : l.find? (fun p : String × α => p.1 == k') with
    | none => simp [hfind, hsing]
    | some q => simp [hfind]

/-! ## `Environment.define` effect lemmas (shared) -/

theorem envDefine_values_self (st : IState) (envId : Nat) (nm : String)
    (v : Value) (idx : Int) (c : Bool) (h : envId < st.envs.length) :
    assocGet? (getEnv (envDefine st envId nm v idx c) envId).values nm =
      some v := by
  rw [getEnv_envDefine_self _ _ _ _ _ _ h]
  exact assocGet?_assocSet_self ..

theorem envDefine_values_other (st : IState) (envId : Nat) (nm nm' : String)
    (v : Value) (idx : Int) (c : Bool) (h : envId < st.envs.length)
    (hne : ¬ nm' = nm) :
    assocGet? (getEnv (envDefine st envId nm v idx c) envId).values nm' =
      assocGet? (getEnv st envId).values nm' := by
  rw [getEnv_envDefine_self _ _ _ _ _ _ h]
  simp only []
  rw [assocGet?_assocSet_ne _ _ _ _ hne]
  by_cases hc : c = true <;> by_cases hi : idx ≠ -1 <;> simp [hc, hi]

theorem envDefine_nameToIndex_nonneg (st : IState) (envId : Nat) (nm : String)
    (v : Value) (i : Nat) (c : Bool) (h : envId < st.envs.length) :
    (getEnv (envDefine st envId nm v (i : Int) c) envId).nameToIndex =
      assocSet (getEnv st envId).nameToIndex nm i := by
  rw [getEnv_envDefine_self _ _ _ _ _ _ h]
  have hi : ((i : Int) ≠ -1) := by omega
  by_cases hc : c = true <;> simp [hc, hi]

theorem envDefine_nameToIndex_neg (st : IState) (envId : Nat) (nm : String)
    (v : Value) (c : Bool) (h : envId < st.envs.length) :
    (getEnv (envDefine st envId nm v (-1) c) envId).nameToIndex =
      (getEnv st envId).nameToIndex := by
  rw [getEnv_envDefine_self _ _ _ _ _ _ h]
  by_cases hc : c = true <;> simp [hc]

theorem envDefine_slots_neg (st : IState) (envId : Nat) (nm : String)
    (v : Value) (c : Bool) (h : envId < st.envs.length) :
    (getEnv (envDefine st envId nm v (-1) c) envId).slots =
      (getEnv st envId).slots := by
  rw [getEnv_envDefine_self _ _ _ _ _ _ h]
  by_cases hc : c = true <;> simp [hc]

/-- The grown slot array of `Environment.define` is long enough for the
written index. -/
theorem slots_grow_set_self (slots : List Value) (i : Nat) (v : Value) :
    ((if slots.length ≤ i then
        slots ++ List.replicate (i - slots.length + 1) Value.none
      else slots).set i v)[i]? = some v := by
  have hlen : i <
      (if slots.length ≤ i then
        slots ++ List.replicate (i - slots.length + 1) Value.none
      else slots).length := by
    by_cases hle : slots.length ≤ i <;> simp [hle] <;> omega
  simp [List.getElem?_set_self, hlen]

theorem slots_grow_set_other (slots : List Value) (i j : Nat) (v : Value)
    (hne : j ≠ i) (w : Value) (hw : slots[j]? = some w) :
    ((if slots.length ≤ i then
        slots ++ List.replicate (i - slots.length + 1) Value.none
      else slots).set i v)[j]? = some w := by
  have hjlen : j < slots.length := by
    by_contra hj
    rw [List.getElem?_eq_none (by omega)] at hw
    exact Option.noConfusion hw
  rw [List.getElem?_set_ne (Ne.symm hne)]
  by_cases hle : slots.length ≤ i
  · rw [if_pos hle, List.getElem?_append_left (by omega), hw]
  · rw [if_neg hle, hw]

theorem envDefine_slots_self (st : IState) (envId : Nat) (nm : String)
    (v : Value) (i : Nat) (c : Bool) (h : envId < st.envs.length) :
    (getEnv (envDefine st envId nm v (i : Int) c) envId).slots[i]? =
      some v := by
  rw [getEnv_envDefine_self _ _ _ _ _ _ h]
  have hi : ((i : Int) ≠ -1) := by omega
  have htn : ((i : Int)).toNat = i := by omega
  by_cases hc : c = true <;>
    simp only [hc, hi, ite_true, ite_false, htn, Bool.false_eq_true] <;>
    exact slots_grow_set_self ..

theorem envDefine_slots_other (st : IState) (envId : Nat) (nm : String)
    (v : Value) (i j : Nat) (c : Bool) (h : envId < st.envs.length)
    (hne : j ≠ i) (w : Value)
    (hw : (getEnv st envId).slots[j]? = some w) :
    (getEnv (envDefine st envId nm v (i : Int) c) envId).slots[j]? =
      some w := by
  rw [getEnv_envDefine_self _ _ _ _ _ _ h]
  have hi : ((i : Int) ≠ -1) := by omega
  have htn : ((i : Int)).toNat = i := by omega
  by_cases hc : c = true <;>
    simp only [hc, hi, ite_true, ite_false, htn, Bool.false_eq_true] <;>
    exact slots_grow_set_other _ _ _ _ hne _ hw

/-! ## `Function.call` binding-loop lemmas (for claim C6) -/

theorem definePositional_length (envId : Nat) (names : List String) :
    ∀ (args : List Value) (st : IState) (i : Nat),
      (definePositional st envId names args i).envs.length =
        st.envs.length := by
  intro args
  induction args with
  | nil => intro st i; rfl
  | cons a rest ih =>
      intro st i
      show (definePositional _ envId names rest (i + 1)).envs.length = _
      rw [ih]
      cases names[i]? with
      | none => rfl
      | some nm => simp [envDefine_length]

theorem definePositional_values_other (envId : Nat) (names : List String)
    (nm : String) (hnm : ¬ nm ∈ names) :
    ∀ (args : List Value) (st : IState) (i : Nat), envId < st.envs.length →
      assocGet? (getEnv (definePositional st envId names args i) envId).values
        nm = assocGet? (getEnv st envId).values nm := by
  intro args
  induction args with
  | nil => intro st i _; rfl
  | cons a rest ih =>
      intro st i h
      show assocGet? (getEnv (definePositional _ envId names rest (i + 1))
        envId).values nm = _
      cases hni : names[i]? with
      | none => exact ih _ _ h
      | some nm0 =>
          have hmem : nm0 ∈ names := List.getElem?_mem hni
          have hne : ¬ nm = nm0 := fun he => hnm (he ▸ hmem)
          rw [ih _ _ (by simp [envDefine_length]; omega)]
          exact envDefine_values_other _ _ _ _ _ _ _ h hne

theorem definePositional_nameToIndex_other (envId : Nat) (names : List String)
    (nm : String) (hnm : ¬ nm ∈ names) :
    ∀ (args : List Value) (st : IState) (i : Nat), envId < st.envs.length →
      assocGet? (getEnv (definePositional st envId names args i)
          envId).nameToIndex nm =
        assocGet? (getEnv st envId).nameToIndex nm := by
  intro args
  induction args with
  | nil => intro st i _; rfl
  | cons a rest ih =>
      intro st i h
      show assocGet? (getEnv (definePositional _ envId names rest (i + 1))
        envId).nameToIndex nm = _
      cases hni : names[i]? with
      | none => exact ih _ _ h
      | some nm0 =>
          have hmem : nm0 ∈ names := List.getElem?_mem hni
          have hne : ¬ nm = nm0 := fun he => hnm (he ▸ hmem)
          rw [ih _ _ (by simp [envDefine_length]; omega)]
          rw [envDefine_nameToIndex_nonneg _ _ _ _ _ _ h]
          exact assocGet?_assocSet_ne _ _ _ _ hne

theorem definePositional_slots_frozen (envId : Nat) (names : List String) :
    ∀ (args : List Value) (st : IState) (i j : Nat) (w : Value),
      envId < st.envs.length → j < i →
      (getEnv st envId).slots[j]? = some w →
      (getEnv (definePositional st envId names args i) envId).slots[j]? =
        some w := by
  intro args
  induction args with
  | nil => intro st i j w _ _ hw; exact hw
  | cons a rest ih =>
      intro st i j w h hj hw
      show (getEnv (definePositional _ envId names rest (i + 1))
        envId).slots[j]? = some w
      cases hni : names[i]? with
      | none => exact ih _ _ _ _ h (by omega) hw
      | some nm0 =>
          exact ih _ _ _ _ (by simp [envDefine_length]; omega) (by omega)
            (envDefine_slots_other _ _ _ _ _ _ _ h (by omega) _ hw)

theorem definePositional_slots_set (envId : Nat) (names : List String) :
    ∀ (args : List Value) (st : IState) (i j : Nat),
      envId < st.envs.length → i ≤ j → j - i < args.length →
      j < names.length →
      (getEnv (definePositional st envId names args i) envId).slots[j]? =
        some (args.getD (j - i) Value.none) := by
  intro args
  induction args with
  | nil => intro st i j _ _ h2 _; simp at h2
  | cons a rest ih =>
      intro st i j h h1 h2 h3
      show (getEnv (definePositional _ envId names rest (i + 1))
        envId).slots[j]? = _
      have hni : names[i]? = some (names.get ⟨i, by omega⟩) :=
        List.getElem?_eq_getElem (by omega)
      rw [hni]
      by_cases hji : j = i
      · subst hji
        simp only [Nat.sub_self, List.getD_cons_zero]
        exact definePositional_slots_frozen envId names rest _ _ _ _
          (by simp [envDefine_length]; omega) (by omega)
          (envDefine_slots_self _ _ _ _ _ _ h)
      · have h1' : i + 1 ≤ j := by omega
        have h2' : j - (i + 1) < rest.length := by
          simp at h2
          omega
        have hgd : (a :: rest).getD (j - i) Value.none =
            rest.getD (j - (i + 1)) Value.none := by
          have : j - i = (j - (i + 1)) + 1 := by omega
          simp [this]
        rw [hgd]
        exact ih _ _ _ (by simp [envDefine_length]; omega) h1' h2' h3

theorem fillMissing_length (envId : Nat) :
    ∀ (names : List String) (st : IState) (i : Nat),
      (fillMissing st envId names i).envs.length = st.envs.length := by
  intro names
  induction names with
  | nil => intro st i; rfl
  | cons nm rest ih =>
      intro st i
      show (fillMissing _ envId rest (i + 1)).envs.length = _
      rw [ih]
      simp [envDefine_length]

theorem fillMissing_values_other (envId : Nat) (nm : String) :
    ∀ (names : List String) (st : IState) (i : Nat), ¬ nm ∈ names →
      envId < st.envs.length →
      assocGet? (getEnv (fillMissing st envId names i) envId).values nm =
        assocGet? (getEnv st envId).values nm := by
  intro names
  induction names with
  | nil => intro st i _ _; rfl
  | cons nm0 rest ih =>
      intro st i hnm h
      have hne : ¬ nm = nm0 := fun he => hnm (by simp [he])
      show assocGet? (getEnv (fillMissing _ envId rest (i + 1)) envId).values
        nm = _
      rw [ih _ _ (fun hm => hnm (by simp [hm]))
        (by simp [envDefine_length]; omega)]
      exact envDefine_values_other _ _ _ _ _ _ _ h hne

theorem fillMissing_nameToIndex_other (envId : Nat) (nm : String) :
    ∀ (names : List String) (st : IState) (i : Nat), ¬ nm ∈ names →
      envId < st.envs.length →
      assocGet? (getEnv (fillMissing st envId names i) envId).nameToIndex nm =
        assocGet? (getEnv st envId).nameToIndex nm := by
  intro names
  induction names with
  | nil => intro st i _ _; rfl
  | cons nm0 rest ih =>
      intro st i hnm h
      have hne : ¬ nm = nm0 := fun he => hnm (by simp [he])
      show assocGet? (getEnv (fillMissing _ envId rest (i + 1))
        envId).nameToIndex nm = _
      rw [ih _ _ (fun hm => hnm (by simp [hm]))
        (by simp [envDefine_length]; omega)]
      rw [envDefine_nameToIndex_nonneg _ _ _ _ _ _ h]
      exact assocGet?_assocSet_ne _ _ _ _ hne

theorem fillMissing_slots_frozen (envId : Nat) :
    ∀ (names : List String) (st : IState) (i j : Nat) (w : Value),
      envId < st.envs.length → j < i →
      (getEnv st envId).slots[j]? = some w →
      (getEnv (fillMissing st envId names i) envId).slots[j]? = some w := by
  intro names
  induction names with
  | nil => intro st i j w _ _ hw; exact hw
  | cons nm0 rest ih =>
      intro st i j w h hj hw
      show (getEnv (fillMissing _ envId rest (i + 1)) envId).slots[j]? =
        some w
      exact ih _ _ _ _ (by simp [envDefine_length]; omega) (by omega)
        (envDefine_slots_other _ _ _ _ _ _ _ h (by omega) _ hw)

theorem fillMissing_slots_set (envId : Nat) :
    ∀ (names : List String) (st : IState) (i j : Nat),
      envId < st.envs.length → i ≤ j → j - i < names.length →
      (getEnv (fillMissing st envId names i) envId).slots[j]? =
        some Value.missingArg := by
  intro names
  induction names with
  | nil => intro st i j _ _ h2; simp at h2
  | cons nm0 rest ih =>
      intro st i j h h1 h2
      show (getEnv (fillMissing _ envId rest (i + 1)) envId).slots[j]? = _
      by_cases hji : j = i
      · subst hji
        exact fillMissing_slots_frozen envId rest _ _ _ _
          (by simp [envDefine_length]; omega) (by omega)
          (envDefine_slots_self _ _ _ _ _ _ h)
      · exact ih _ _ _ (by simp [envDefine_length]; omega) (by omega)
          (by simp at h2; omega)

/-! ## Claim C8 — try/catch -/

/-- C8: when the `try` body fails with a runtime failure (anything but
`Break`/`Continue`/`Return`), the try/catch statement evaluates to exactly
the execution of the `catch` body in a freshly created child environment of
the current one, in which the declared error variable (default `error`)
holds the error message string — so the original failure propagates no
further than the catch machinery. -/
theorem c8_try_catch (fuel : Nat) (st st' : IState) (envId : Nat)
    (tryBody catchBody : List AST) (errorVar : Option String) (msg : String)
    (htry : executeStmts fuel st envId tryBody = .error (.rt msg, st'))
    (hcb : catchBody ≠ []) :
    execute (fuel + 1) st envId
        (.TryCatchStatement tryBody catchBody errorVar) =
      executeStmts fuel
        (envDefine (newEnv st' (some envId) 0).2 st'.envs.length
          (match errorVar with
           | some s => if s = "" then "error" else s
           | Option.none => "error") (.str msg) (-1))
        st'.envs.length catchBody ∧
    assocGet?
      (getEnv
        (envDefine (newEnv st' (some envId) 0).2 st'.envs.length
          (match errorVar with
           | some s => if s = "" then "error" else s
           | Option.none => "error") (.str msg) (-1))
        st'.envs.length).values
      (match errorVar with
       | some s => if s = "" then "error" else s
       | Option.none => "error") = some (.str msg) ∧
    (getEnv
      (envDefine (newEnv st' (some envId) 0).2 st'.envs.length
        (match errorVar with
         | some s => if s = "" then "error" else s
         | Option.none => "error") (.str msg) (-1))
      st'.envs.length).enclosing = some envId := by
  have hlen : st'.envs.length < (newEnv st' (some envId) 0).2.envs.length := by
    rw [newEnv_length]
    omega
  have hfresh := getEnv_newEnv st' (some envId) 0
  have hdef := getEnv_envDefine_self (newEnv st' (some envId) 0).2
    st'.envs.length
    (match errorVar with
     | some s => if s = "" then "error" else s
     | Option.none => "error") (.str msg) (-1) false hlen
  rw [hfresh] at hdef
  refine ⟨?_, ?_, ?_⟩
  · simp only [execute]
    rw [htry]
    cases catchBody with
    | nil => exact absurd rfl hcb
    | cons c cs => simp [newEnv_fst]
  · rw [hdef]
    simp [assocSet, assocGet?]
  · rw [hdef]
    simp

/-- C8 witness: `try { raise "boom" } catch (e) { var y = e }` binds the
message string to `e` in a fresh child environment and the failure stops
there, applied through the theorem at a concrete input. -/
theorem c8_try_catch_witness :
    execute 4 initIState 0
        (.TryCatchStatement [.RaiseStatement (.String "boom")]
          [.VarDeclaration "y" (.Identifier "e")] (some "e")) =
      executeStmts 3
        (envDefine (newEnv initIState (some 0) 0).2 initIState.envs.length
          "e" (.str "boom") (-1))
        initIState.envs.length [.VarDeclaration "y" (.Identifier "e")] :=
  (c8_try_catch 3 initIState initIState 0 [.RaiseStatement (.String "boom")]
    [.VarDeclaration "y" (.Identifier "e")] (some "e") "boom" (by rfl)
    (by simp)).1

/-! ## Lexer invariant lemmas (for claim C5) -/

theorem lexInv_initState (text : List Char) : lexInv (Lexer.initState text) := by
  constructor
  · exact le_refl 1
  · intro h
    exact absurd h (by simp [Lexer.initState])

theorem lexInv_advance (s : LexState) (h : lexInv s) :
    lexInv (Lexer.advance s) := by
  obtain ⟨hline, hcol⟩ := h
  simp only [Lexer.advance]
  cases hnext : s.text[s.pos + 1]? with
  | none =>
      exact ⟨by simpa using hline, by intro hc; simp at hc⟩
  | some c =>
      split
      next c' hc' =>
        obtain rfl : c = c' := by injection hc'
        split
        next hc =>
          refine ⟨by simp, ?_⟩
          intro _
          simp [Lexer.currentChar, hnext, hc]
        next hc =>
          exact ⟨by simpa using hline, by intro hcb; simp at hcb⟩
      next hc' => exact Option.noConfusion hc' 

theorem lexInv_column_pos (s : LexState) (h : lexInv s) (c : Char)
    (hcur : Lexer.currentChar s = some c) (hc : ¬ c = '\n') : 1 ≤ s.column := by
  rcases Nat.eq_zero_or_pos s.column with h0 | h1
  · have := h.2 h0
    rw [hcur] at this
    exact absurd (by simpa using this) hc
  · exact h1

theorem lexInv_column_pos_eof (s : LexState) (h : lexInv s)
    (hcur : Lexer.currentChar s = Option.none) : 1 ≤ s.column := by
  rcases Nat.eq_zero_or_pos s.column with h0 | h1
  · have := h.2 h0
    rw [hcur] at this
    exact Option.noConfusion this
  · exact h1

theorem lexInv_skipWhitespace (fuel : Nat) :
    ∀ s : LexState, lexInv s → lexInv (Lexer.skipWhitespace fuel s) := by
  induction fuel with
  | zero => intro s h; exact h
  | succ fuel ih =>
      intro s h
      unfold Lexer.skipWhitespace
      cases hcur : Lexer.currentChar s with
      | none => exact h
      | some c =>
          by_cases hc : pyIsSpace c && c != '\n'
          · simp only [hc, if_true]
            exact ih _ (lexInv_advance _ h)
          · simp only [hc, if_false]
            exact h

theorem lexInv_skipComment (fuel : Nat) :
    ∀ s : LexState, lexInv s → lexInv (Lexer.skipComment fuel s) := by
  induction fuel with
  | zero => intro s h; exact h
  | succ fuel ih =>
      intro s h
      unfold Lexer.skipComment
      cases hcur : Lexer.currentChar s with
      | none => exact h
      | some c =>
          by_cases hc : c != '\n'
          · simp only [hc, if_true]
            exact ih _ (lexInv_advance _ h)
          · simp only [hc, if_false]
            exact h

theorem lexInv_takeDigits (fuel : Nat) :
    ∀ (s : LexState) (acc : List Char), lexInv s →
      lexInv (Lexer.takeDigits fuel s acc).2 := by
  induction fuel with
  | zero => intro s acc h; exact h
  | succ fuel ih =>
      intro s acc h
      unfold Lexer.takeDigits
      cases hcur : Lexer.currentChar s with
      | none => exact h
      | some c =>
          by_cases hc : pyIsDigit c
          · simp only [hc, if_true]
            exact ih _ _ (lexInv_advance _ h)
          · simp only [hc, if_false]
            exact h

theorem lexInv_takeIdentChars (fuel : Nat) :
    ∀ (s : LexState) (acc : List Char), lexInv s →
      lexInv (Lexer.takeIdentChars fuel s acc).2 := by
  induction fuel with
  | zero => intro s acc h; exact h
  | succ fuel ih =>
      intro s acc h
      unfold Lexer.takeIdentChars
      cases hcur : Lexer.currentChar s with
      | none => exact h
      | some c =>
          by_cases hc : pyIsAlnum c || c = '_'
          · simp only [hc, if_true]
            exact ih _ _ (lexInv_advance _ h)
          · simp only [hc, if_false]
            exact h

theorem lexInv_stringBody (fuel : Nat) (quote : Char) :
    ∀ (s : LexState) (acc : List Char), lexInv s →
      lexInv (Lexer.stringBody fuel quote s acc).2 := by
  induction fuel with
  | zero => intro s acc h; exact h
  | succ fuel ih =>
      intro s acc h
      unfold Lexer.stringBody
      cases hcur : Lexer.currentChar s with
      | none => exact h
      | some c =>
          split
          next hc' => exact h
          next c' hc' =>
            split
            next => exact h
            next =>
              split
              next => exact ih _ _ (lexInv_advance _ (lexInv_advance _ h))
              next => exact ih _ _ (lexInv_advance _ h)

theorem advance_eq_of_next (s : LexState) (c : Char)
    (h : s.text[s.pos + 1]? = some c) (hc : ¬ c = '\n') :
    Lexer.advance s =
      { s with pos := s.pos + 1, column := s.column + 1 } := by
  simp only [Lexer.advance, h, if_neg hc]

theorem advance_eq_of_none (s : LexState)
    (h : s.text[s.pos + 1]? = Option.none) :
    Lexer.advance s =
      { s with pos := s.pos + 1, column := s.column + 1 } := by
  simp only [Lexer.advance, h]

theorem lexIdentifier_ok (fuel : Nat) (s : LexState) (hinv : lexInv s)
    (hcol : 1 ≤ s.column) :
    tokenPosOK (Lexer.lexIdentifier fuel s).1 ∧
      lexInv (Lexer.lexIdentifier fuel s).2 := by
  have hinv1 := lexInv_takeIdentChars fuel s [] hinv
  refine ⟨⟨hinv1.1, fun _ => hcol⟩, hinv1⟩

theorem lexInv_lexNumberSign (s : LexState) (hinv : lexInv s) :
    lexInv (Lexer.lexNumberSign s).2 := by
  unfold Lexer.lexNumberSign
  split
  · exact lexInv_advance _ hinv
  · exact hinv

theorem lexInv_lexNumberFrac (fuel : Nat) (s1 : LexState) (res1 : List Char)
    (hinv : lexInv s1) : lexInv (Lexer.lexNumberFrac fuel s1 res1).2 := by
  unfold Lexer.lexNumberFrac
  split
  · split
    · exact hinv
    · exact lexInv_takeDigits _ _ _ (lexInv_advance _ hinv)
  · exact hinv

theorem lexNumber_ok (fuel : Nat) (s : LexState) (hinv : lexInv s)
    (hcol : 1 ≤ s.column) :
    tokenPosOK (Lexer.lexNumber fuel s).1 ∧
      lexInv (Lexer.lexNumber fuel s).2 := by
  simp only [Lexer.lexNumber]
  rcases h0 : Lexer.lexNumberSign s with ⟨res0, s0⟩
  have hinv0 : lexInv s0 := by
    have := lexInv_lexNumberSign s hinv
    rw [h0] at this
    exact this
  rcases h1 : Lexer.takeDigits fuel s0 res0 with ⟨res1, s1⟩
  have hinv1 : lexInv s1 := by
    have := lexInv_takeDigits fuel s0 res0 hinv0
    rw [h1] at this
    exact this
  rcases h2 : Lexer.lexNumberFrac fuel s1 res1 with ⟨res2, s2⟩
  have hinv2 : lexInv s2 := by
    have := lexInv_lexNumberFrac fuel s1 res1 hinv1
    rw [h2] at this
    exact this
  exact ⟨⟨hinv2.1, fun _ => hcol⟩, hinv2⟩

theorem stringAny_ok (fuel : Nat) (quote : Char) (s : LexState) (t : Token)
    (s' : LexState) (hinv : lexInv s) (hcol : 1 ≤ s.column)
    (h : Lexer.stringAny fuel quote s = .ok (t, s')) :
    tokenPosOK t ∧ lexInv s' := by
  simp only [Lexer.stringAny] at h
  have h0 : lexInv (Lexer.advance s) := lexInv_advance _ hinv
  have h1 := lexInv_stringBody fuel quote (Lexer.advance s) [] h0
  rcases hb : Lexer.stringBody fuel quote (Lexer.advance s) [] with ⟨res, s1⟩
  rw [hb] at h h1
  by_cases hq : Lexer.currentChar s1 = some quote
  · rw [if_pos hq] at h
    simp only [Except.ok.injEq, Prod.mk.injEq] at h
    obtain ⟨rfl, rfl⟩ := h
    exact ⟨⟨h1.1, fun _ => hcol⟩, lexInv_advance _ h1⟩
  · rw [if_neg hq] at h
    exact Except.noConfusion h

/-- Every token `get_next_token` emits satisfies `tokenPosOK` — tail of the
operator chain (single- and two-character operator tokens). -/
theorem getNextToken_posOK_tail (s : LexState) (t : Token) (s' : LexState)
    (c : Char) (hinv : lexInv s) (_hcur : Lexer.currentChar s = some c)
    (hcol : 1 ≤ s.column)
    (h : (if c = '+' then
        Except.ok (⟨.PLUS, .str "+", s.line, s.column⟩, Lexer.advance s)
      else if c = '-' then
        Except.ok (⟨.MINUS, .str "-", s.line, s.column⟩, Lexer.advance s)
      else if c = '*' then
        if Lexer.peek s = some '*' then
          Except.ok (⟨.POWER, .str "**",
            (Lexer.advance (Lexer.advance s)).line, s.column⟩,
            Lexer.advance (Lexer.advance s))
        else Except.ok (⟨.MULTIPLY, .str "*", s.line, s.column⟩,
          Lexer.advance s)
      else if c = '/' then
        Except.ok (⟨.DIVIDE, .str "/", s.line, s.column⟩, Lexer.advance s)
      else if c = '%' then
        Except.ok (⟨.MODULO, .str "%", s.line, s.column⟩, Lexer.advance s)
      else if c = '=' then
        if Lexer.currentChar (Lexer.advance s) = some '=' then
          Except.ok (⟨.EQUALS, .str "==",
            (Lexer.advance (Lexer.advance s)).line, s.column⟩,
            Lexer.advance (Lexer.advance s))
        else Except.ok (⟨.ASSIGN, .str "=", (Lexer.advance s).line,
          s.column⟩, Lexer.advance s)
      else if c = '!' then
        if Lexer.currentChar (Lexer.advance s) = some '=' then
          Except.ok (⟨.NOT_EQUALS, .str "!=", s.line, s.column⟩,
            Lexer.advance (Lexer.advance s))
        else Except.ok (⟨.NOT, .str "!", s.line, s.column⟩,
          Lexer.advance s)
      else if c = '<' then
        if Lexer.currentChar (Lexer.advance s) = some '=' then
          Except.ok (⟨.LESS_THAN_EQUALS, .str "<=",
            (Lexer.advance (Lexer.advance s)).line, s.column⟩,
            Lexer.advance (Lexer.advance s))
        else Except.ok (⟨.LESS_THAN, .str "<",
          (Lexer.advance s).line, s.column⟩, Lexer.advance s)
      else if c = '>' then
        if Lexer.currentChar (Lexer.advance s) = some '=' then
          Except.ok (⟨.GREATER_THAN_EQUALS, .str ">=",
            (Lexer.advance (Lexer.advance s)).line, s.column⟩,
            Lexer.advance (Lexer.advance s))
        else Except.ok (⟨.GREATER_THAN, .str ">",
          (Lexer.advance s).line, s.column⟩, Lexer.advance s)
      else if c = '(' then
        Except.ok (⟨.LPAREN, .str "(", s.line, s.column⟩, Lexer.advance s)
      else if c = ')' then
        Except.ok (⟨.RPAREN, .str ")", s.line, s.column⟩, Lexer.advance s)
      else if c = '\x7b' then
        Except.ok (⟨.LBRACE, .str "\x7b", s.line, s.column⟩,
          Lexer.advance s)
      else if c = '\x7d' then
        Except.ok (⟨.RBRACE, .str "\x7d", s.line, s.column⟩,
          Lexer.advance s)
      else if c = '[' then
        Except.ok (⟨.LBRACKET, .str "[", s.line, s.column⟩,
          Lexer.advance s)
      else if c = ']' then
        Except.ok (⟨.RBRACKET, .str "]", s.line, s.column⟩,
          Lexer.advance s)
      else if c = ',' then
        Except.ok (⟨.COMMA, .str ",", s.line, s.column⟩, Lexer.advance s)
      else if c = '.' then
        if Lexer.currentChar (Lexer.advance s) = some '.' then
          Except.ok (⟨.DOT_DOT, .str "..",
            (Lexer.advance (Lexer.advance s)).line, s.column⟩,
            Lexer.advance (Lexer.advance s))
        else Except.ok (⟨.DOT, .str ".", (Lexer.advance s).line,
          s.column⟩, Lexer.advance s)
      else if c = ':' then
        Except.ok (⟨.COLON, .str ":", s.line, s.column⟩, Lexer.advance s)
      else if c = '@' then
        Except.ok (⟨.AT, .str "@", s.line, s.column⟩, Lexer.advance s)
      else if c = '\\' then
        Except.ok (⟨.BACKSLASH, .str "\\", s.line, s.column⟩,
          Lexer.advance s)
      else Except.error (Lexer.LexErr.invalidChar (some c) s.line s.column)) =
      (Except.ok (t, s') : Except Lexer.LexErr (Token × LexState))) :
    tokenPosOK t ∧ lexInv s' := by
  have hadv1 : lexInv (Lexer.advance s) := lexInv_advance _ hinv
  have hadv2 : lexInv (Lexer.advance (Lexer.advance s)) :=
    lexInv_advance _ hadv1
  by_cases hh0 : c = '+'
  · rw [if_pos hh0] at h
    simp only [Except.ok.injEq, Prod.mk.injEq] at h
    obtain ⟨rfl, rfl⟩ := h
    exact ⟨⟨hinv.1, fun _ => hcol⟩, hadv1⟩
  · rw [if_neg hh0] at h
    by_cases hh1 : c = '-'
    · rw [if_pos hh1] at h
      simp only [Except.ok.injEq, Prod.mk.injEq] at h
      obtain ⟨rfl, rfl⟩ := h
      exact ⟨⟨hinv.1, fun _ => hcol⟩, hadv1⟩
    · rw [if_neg hh1] at h
      by_cases hh2 : c = '*'
      · rw [if_pos hh2] at h
        by_cases hi2 : Lexer.peek s = some '*'
        · rw [if_pos hi2] at h
          simp only [Except.ok.injEq, Prod.mk.injEq] at h
          obtain ⟨rfl, rfl⟩ := h
          exact ⟨⟨hadv2.1, fun _ => hcol⟩, hadv2⟩
        · rw [if_neg hi2] at h
          simp only [Except.ok.injEq, Prod.mk.injEq] at h
          obtain ⟨rfl, rfl⟩ := h
          exact ⟨⟨hinv.1, fun _ => hcol⟩, hadv1⟩
      · rw [if_neg hh2] at h
        by_cases hh3 : c = '/'
        · rw [if_pos hh3] at h
          simp only [Except.ok.injEq, Prod.mk.injEq] at h
          obtain ⟨rfl, rfl⟩ := h
          exact ⟨⟨hinv.1, fun _ => hcol⟩, hadv1⟩
        · rw [if_neg hh3] at h
          by_cases hh4 : c = '%'
          · rw [if_pos hh4] at h
            simp only [Except.ok.injEq, Prod.mk.injEq] at h
            obtain ⟨rfl, rfl⟩ := h
            exact ⟨⟨hinv.1, fun _ => hcol⟩, hadv1⟩
          · rw [if_neg hh4] at h
            by_cases hh5 : c = '='
            · rw [if_pos hh5] at h
              by_cases hi5 : Lexer.currentChar (Lexer.advance s) = some '='
              · rw [if_pos hi5] at h
                simp only [Except.ok.injEq, Prod.mk.injEq] at h
                obtain ⟨rfl, rfl⟩ := h
                exact ⟨⟨hadv2.1, fun _ => hcol⟩, hadv2⟩
              · rw [if_neg hi5] at h
                simp only [Except.ok.injEq, Prod.mk.injEq] at h
                obtain ⟨rfl, rfl⟩ := h
                exact ⟨⟨hadv1.1, fun _ => hcol⟩, hadv1⟩
            · rw [if_neg hh5] at h
              by_cases hh6 : c = '!'
              · rw [if_pos hh6] at h
                by_cases hi6 : Lexer.currentChar (Lexer.advance s) = some '='
                · rw [if_pos hi6] at h
                  simp only [Except.ok.injEq, Prod.mk.injEq] at h
                  obtain ⟨rfl, rfl⟩ := h
                  exact ⟨⟨hinv.1, fun _ => hcol⟩, hadv2⟩
                · rw [if_neg hi6] at h
                  simp only [Except.ok.injEq, Prod.mk.injEq] at h
                  obtain ⟨rfl, rfl⟩ := h
                  exact ⟨⟨hinv.1, fun _ => hcol⟩, hadv1⟩
              · rw [if_neg hh6] at h
                by_cases hh7 : c = '<'
                · rw [if_pos hh7] at h
                  by_cases hi7 : Lexer.currentChar (Lexer.advance s) = some '='
                  · rw [if_pos hi7] at h
                    simp only [Except.ok.injEq, Prod.mk.injEq] at h
                    obtain ⟨rfl, rfl⟩ := h
                    exact ⟨⟨hadv2.1, fun _ => hcol⟩, hadv2⟩
                  · rw [if_neg hi7] at h
                    simp only [Except.ok.injEq, Prod.mk.injEq] at h
                    obtain ⟨rfl, rfl⟩ := h
                    exact ⟨⟨hadv1.1, fun _ => hcol⟩, hadv1⟩
                · rw [if_neg hh7] at h
                  by_cases hh8 : c = '>'
                  · rw [if_pos hh8] at h
                    by_cases hi8 : Lexer.currentChar (Lexer.advance s) = some '='
                    · rw [if_pos hi8] at h
                      simp only [Except.ok.injEq, Prod.mk.injEq] at h
                      obtain ⟨rfl, rfl⟩ := h
                      exact ⟨⟨hadv2.1, fun _ => hcol⟩, hadv2⟩
                    · rw [if_neg hi8] at h
                      simp only [Except.ok.injEq, Prod.mk.injEq] at h
                      obtain ⟨rfl, rfl⟩ := h
                      exact ⟨⟨hadv1.1, fun _ => hcol⟩, hadv1⟩
                  · rw [if_neg hh8] at h
                    by_cases hh9 : c = '('
                    · rw [if_pos hh9] at h
                      simp only [Except.ok.injEq, Prod.mk.injEq] at h
                      obtain ⟨rfl, rfl⟩ := h
                      exact ⟨⟨hinv.1, fun _ => hcol⟩, hadv1⟩
                    · rw [if_neg hh9] at h
                      by_cases hh10 : c = ')'
                      · rw [if_pos hh10] at h
                        simp only [Except.ok.injEq, Prod.mk.injEq] at h
                        obtain ⟨rfl, rfl⟩ := h
                        exact ⟨⟨hinv.1, fun _ => hcol⟩, hadv1⟩
                      · rw [if_neg hh10] at h
                        by_cases hh11 : c = '\x7b'
                        · rw [if_pos hh11] at h
                          simp only [Except.ok.injEq, Prod.mk.injEq] at h
                          obtain ⟨rfl, rfl⟩ := h
                          exact ⟨⟨hinv.1, fun _ => hcol⟩, hadv1⟩
                        · rw [if_neg hh11] at h
                          by_cases hh12 : c = '\x7d'
                          · rw [if_pos hh12] at h
                            simp only [Except.ok.injEq, Prod.mk.injEq] at h
                            obtain ⟨rfl, rfl⟩ := h
                            exact ⟨⟨hinv.1, fun _ => hcol⟩, hadv1⟩
                          · rw [if_neg hh12] at h
                            by_cases hh13 : c = '['
                            · rw [if_pos hh13] at h
                              simp only [Except.ok.injEq, Prod.mk.injEq] at h
                              obtain ⟨rfl, rfl⟩ := h
                              exact ⟨⟨hinv.1, fun _ => hcol⟩, hadv1⟩
                            · rw [if_neg hh13] at h
                              by_cases hh14 : c = ']'
                              · rw [if_pos hh14] at h
                                simp only [Except.ok.injEq, Prod.mk.injEq] at h
                                obtain ⟨rfl, rfl⟩ := h
                                exact ⟨⟨hinv.1, fun _ => hcol⟩, hadv1⟩
                              · rw [if_neg hh14] at h
                                by_cases hh15 : c = ','
                                · rw [if_pos hh15] at h
                                  simp only [Except.ok.injEq, Prod.mk.injEq] at h
                                  obtain ⟨rfl, rfl⟩ := h
                                  exact ⟨⟨hinv.1, fun _ => hcol⟩, hadv1⟩
                                · rw [if_neg hh15] at h
                                  by_cases hh16 : c = '.'
                                  · rw [if_pos hh16] at h
                                    by_cases hi16 : Lexer.currentChar (Lexer.advance s) = some '.'
                                    · rw [if_pos hi16] at h
                                      simp only [Except.ok.injEq, Prod.mk.injEq] at h
                                      obtain ⟨rfl, rfl⟩ := h
                                      exact ⟨⟨hadv2.1, fun _ => hcol⟩, hadv2⟩
                                    · rw [if_neg hi16] at h
                                      simp only [Except.ok.injEq, Prod.mk.injEq] at h
                                      obtain ⟨rfl, rfl⟩ := h
                                      exact ⟨⟨hadv1.1, fun _ => hcol⟩, hadv1⟩
                                  · rw [if_neg hh16] at h
                                    by_cases hh17 : c = ':'
                                    · rw [if_pos hh17] at h
                                      simp only [Except.ok.injEq, Prod.mk.injEq] at h
                                      obtain ⟨rfl, rfl⟩ := h
                                      exact ⟨⟨hinv.1, fun _ => hcol⟩, hadv1⟩
                                    · rw [if_neg hh17] at h
                                      by_cases hh18 : c = '@'
                                      · rw [if_pos hh18] at h
                                        simp only [Except.ok.injEq, Prod.mk.injEq] at h
                                        obtain ⟨rfl, rfl⟩ := h
                                        exact ⟨⟨hinv.1, fun _ => hcol⟩, hadv1⟩
                                      · rw [if_neg hh18] at h
                                        by_cases hh19 : c = '\\'
                                        · rw [if_pos hh19] at h
                                          simp only [Except.ok.injEq, Prod.mk.injEq] at h
                                          obtain ⟨rfl, rfl⟩ := h
                                          exact ⟨⟨hinv.1, fun _ => hcol⟩, hadv1⟩
                                        · rw [if_neg hh19] at h
                                          exact Except.noConfusion h

/-- Every token `get_next_token` emits satisfies `tokenPosOK`, and the
lexer-state invariant is maintained. -/
theorem getNextToken_posOK :
    ∀ (fuel : Nat) (s : LexState) (t : Token) (s' : LexState), lexInv s →
      Lexer.getNextToken fuel s = .ok (t, s') → tokenPosOK t ∧ lexInv s' := by
  intro fuel
  induction fuel with
  | zero =>
      intro s t s' _ h
      exact Except.noConfusion h
  | succ fuel ih =>
      intro s t s' hinv h
      simp only [Lexer.getNextToken] at h
      cases hcur : Lexer.currentChar s with
      | none =>
          simp only [hcur] at h
          simp only [Except.ok.injEq, Prod.mk.injEq] at h
          obtain ⟨rfl, rfl⟩ := h
          exact ⟨⟨hinv.1, fun _ => lexInv_column_pos_eof s hinv hcur⟩, hinv⟩
      | some c =>
          simp only [hcur] at h
          by_cases h1 : (pyIsSpace c && c != '\n') = true
          · rw [if_pos h1] at h
            exact ih _ _ _ (lexInv_skipWhitespace fuel s hinv) h
          · rw [if_neg h1] at h
            by_cases h2 : c = '\n'
            · rw [if_pos h2] at h
              simp only [Except.ok.injEq, Prod.mk.injEq] at h
              obtain ⟨rfl, rfl⟩ := h
              exact ⟨⟨hinv.1, fun hne => absurd rfl hne⟩, lexInv_advance _ hinv⟩
            · rw [if_neg h2] at h
              have hcol : 1 ≤ s.column := lexInv_column_pos s hinv c hcur h2
              by_cases h3 : (c = '/' && Lexer.peek s = some '/') = true
              · rw [if_pos h3] at h
                simp only [Bool.and_eq_true, decide_eq_true_eq] at h3
                obtain ⟨hc', hpk⟩ := h3
                have hadv1 : Lexer.advance s =
                    { s with pos := s.pos + 1, column := s.column + 1 } :=
                  advance_eq_of_next s '/' (by simpa [Lexer.peek] using hpk)
                    (by decide)
                by_cases h3a : Lexer.peekN s 2 = some '='
                · rw [if_pos h3a] at h
                  have hadv2 : Lexer.advance (Lexer.advance s) =
                      { s with pos := s.pos + 2, column := s.column + 2 } := by
                    rw [hadv1]
                    rw [advance_eq_of_next _ '='
                      (by simpa [Lexer.peekN] using h3a) (by decide)]
                  rw [hadv2] at h
                  simp only [Except.ok.injEq, Prod.mk.injEq] at h
                  obtain ⟨rfl, rfl⟩ := h
                  refine ⟨⟨hinv.1, fun _ => by simp; omega⟩, ?_⟩
                  exact ⟨hinv.1, by intro hc0; simp at hc0⟩
                · rw [if_neg h3a] at h
                  refine ih _ _ _ ?_ h
                  exact lexInv_skipComment fuel _
                    (lexInv_advance _ (lexInv_advance _ hinv))
              · rw [if_neg h3] at h
                by_cases h4 : (pyIsAlpha c || c = '_') = true
                · rw [if_pos h4] at h
                  have hl := lexIdentifier_ok fuel s hinv hcol
                  rcases hp : Lexer.lexIdentifier fuel s with ⟨tok, st⟩
                  rw [hp] at h hl
                  simp only [Except.ok.injEq, Prod.mk.injEq] at h
                  obtain ⟨rfl, rfl⟩ := h
                  exact hl
                · rw [if_neg h4] at h
                  by_cases h5 : (pyIsDigit c ||
                      (c = '-' && (Lexer.peek s).elim false pyIsDigit)) = true
                  · rw [if_pos h5] at h
                    have hl := lexNumber_ok fuel s hinv hcol
                    rcases hp : Lexer.lexNumber fuel s with ⟨tok, st⟩
                    rw [hp] at h hl
                    simp only [Except.ok.injEq, Prod.mk.injEq] at h
                    obtain ⟨rfl, rfl⟩ := h
                    exact hl
                  · rw [if_neg h5] at h
                    by_cases h6 : c = '"'
                    · rw [if_pos h6] at h
                      exact stringAny_ok fuel '"' s t s' hinv hcol h
                    · rw [if_neg h6] at h
                      by_cases h7 : c = '\''
                      · rw [if_pos h7] at h
                        exact stringAny_ok fuel '\'' s t s' hinv hcol h
                      · rw [if_neg h7] at h
                        by_cases h8 : c = '&'
                        · rw [if_pos h8] at h
                          by_cases h8a : Lexer.peek s = some '&'
                          · rw [if_pos h8a] at h
                            simp only [Except.ok.injEq, Prod.mk.injEq] at h
                            obtain ⟨rfl, rfl⟩ := h
                            have hinv2 := lexInv_advance _ (lexInv_advance _ hinv)
                            exact ⟨⟨hinv2.1, fun _ => hcol⟩, hinv2⟩
                          · rw [if_neg h8a] at h
                            exact Except.noConfusion h
                        · rw [if_neg h8] at h
                          by_cases h9 : c = '|'
                          · rw [if_pos h9] at h
                            by_cases h9a : Lexer.peek s = some '|'
                            · rw [if_pos h9a] at h
                              simp only [Except.ok.injEq, Prod.mk.injEq] at h
                              obtain ⟨rfl, rfl⟩ := h
                              have hinv2 := lexInv_advance _
                                (lexInv_advance _ hinv)
                              exact ⟨⟨hinv2.1, fun _ => hcol⟩, hinv2⟩
                            · rw [if_neg h9a] at h
                              exact Except.noConfusion h
                          · rw [if_neg h9] at h
                            exact getNextToken_posOK_tail s t s' c hinv hcur
                              hcol h

/-! ## Claim C6 — call-environment binding -/

/-- Every token in a successful `lexAll` run from a state satisfying
`lexInv` satisfies `tokenPosOK`. -/
theorem lexAll_posOK :
    ∀ (fuel : Nat) (s : LexState) (toks : List Token), lexInv s →
      Lexer.lexAll fuel s = .ok toks → ∀ t ∈ toks, tokenPosOK t := by
  intro fuel
  induction fuel with
  | zero =>
      intro s toks _ h
      exact Except.noConfusion h
  | succ fuel ih =>
      intro s toks hinv h
      simp only [Lexer.lexAll] at h
      split at h
      next e heq => exact Except.noConfusion h
      next tok s' heq =>
          obtain ⟨htok, hinv'⟩ :=
            getNextToken_posOK (fuel + 1) s tok s' hinv heq
          by_cases he : tok.type = .EOF
          · rw [if_pos he] at h
            simp only [Except.ok.injEq] at h
            subst h
            intro t ht
            simp only [List.mem_singleton] at ht
            subst ht
            exact htok
          · rw [if_neg he] at h
            cases hrest : Lexer.lexAll fuel s' with
            | error e =>
                rw [hrest] at h
                exact Except.noConfusion h
            | ok rest =>
                rw [hrest] at h
                simp only [Except.ok.injEq] at h
                subst h
                intro t ht
                rcases List.mem_cons.mp ht with rfl | hmem
                · exact htok
                · exact ih s' rest hinv' hrest t hmem

/-- C5 counterexample: tokenizing the source `"a\n"` emits a NEWLINE token
whose column is 0, refuting "column ≥ 1 for every token (including
NEWLINE tokens)": `Lexer.advance` resets the column counter to 0 when the
cursor moves onto a newline character, and `get_next_token` stamps the
NEWLINE token with that column. -/
theorem c5_counterexample :
    Lexer.tokenize 8 ['a', '\n'] =
      .ok [⟨.IDENTIFIER, .str "a", 2, 1⟩, ⟨.NEWLINE, .str "\n", 2, 0⟩,
           ⟨.EOF, .none, 2, 1⟩] ∧
    (Token.mk .NEWLINE (.str "\n") 2 0).column = 0 := ⟨rfl, rfl⟩

/-- C5 (amended): for every source text, every token produced by the lexer
carries a line number ≥ 1, and every token other than a NEWLINE token also
carries a column number ≥ 1 (a NEWLINE token is stamped with the column
counter, which `advance` has just reset to 0 on reaching the newline
character). -/
theorem c5_amended (fuel : Nat) (text : List Char) (toks : List Token)
    (h : Lexer.tokenize fuel text = .ok toks) :
    ∀ t ∈ toks, 1 ≤ t.line ∧ (t.type ≠ .NEWLINE → 1 ≤ t.column) := by
  intro t ht
  exact lexAll_posOK fuel (Lexer.initState text) toks (lexInv_initState text)
    h t ht

/-- C5 witness: the amended theorem applied to the source `"a\n"` and its
IDENTIFIER token. -/
theorem c5_amended_witness :
    1 ≤ (Token.mk .IDENTIFIER (.str "a") 2 1).line ∧
    ((Token.mk .IDENTIFIER (.str "a") 2 1).type ≠ .NEWLINE →
      1 ≤ (Token.mk .IDENTIFIER (.str "a") 2 1).column) :=
  c5_amended 8 ['a', '\n']
    [⟨.IDENTIFIER, .str "a", 2, 1⟩, ⟨.NEWLINE, .str "\n", 2, 0⟩,
     ⟨.EOF, .none, 2, 1⟩] rfl (Token.mk .IDENTIFIER (.str "a") 2 1)
    (List.mem_cons_self _ _)

/-- The shape of `bindCallEnv` with no keyword arguments and a bound
receiver. -/
theorem bindCallEnv_eq (st0 : IState) (fenv lc : Nat) (bs : Value)
    (fnName : String) (params : List (String × Option AST))
    (args : List Value) (hbs : bs.isNone = false) :
    bindCallEnv st0 fenv lc bs fnName params args [] =
      .ok (st0.envs.length,
        envDefine
          (fillMissing
            (definePositional
              (envDefine (newEnv st0 (some fenv) lc).2 st0.envs.length
                "self" bs)
              st0.envs.length (params.map (fun p => p.1)) args 0)
            st0.envs.length
            ((params.map (fun p => p.1)).drop args.length) args.length)
          st0.envs.length "args" (.list args)) := by
  simp only [bindCallEnv, applyKwargs, hbs, Bool.false_eq_true, if_false]
  rfl

/-- C6 counterexample: invoking a one-parameter function with bound
`self = 99` on argument `5` puts the argument — not `self` — in slot 0 of
the call environment; `self` appears only in the name map, with no slot
index at all.  The claim asserted `self` is defined at slot index 0. -/
theorem c6_counterexample :
    bindEnvData (bindCallEnv ⟨[], false⟩ 0 1 (.int 99) "g"
      [("p", Option.none)] [.int 5] []) =
      some { values := [("self", Value.int 99), ("p", Value.int 5),
               ("args", Value.list [Value.int 5])],
             slots := [Value.int 5],
             nameToIndex := [("p", 0)],
             constants := [],
             enclosing := some 0 } ∧
    Value.int 5 ≠ Value.int 99 := by
  exact ⟨by rfl, by simp⟩

/-- C6 (amended): when a function with a bound `self` is invoked, `self` is
defined in the fresh call environment's name map only — it has no slot
index — while each declared parameter is defined at the slot index equal to
its positional position, parameters missing a positional argument being
pre-filled with the `MISSING_ARG` sentinel. -/
theorem c6_amended (st0 : IState) (fenv lc : Nat) (bs : Value)
    (fnName : String) (params : List (String × Option AST))
    (args : List Value) (envId : Nat) (st : IState)
    (hbs : bs ≠ Value.none)
    (hself : ¬ "self" ∈ params.map (fun p => p.1))
    (h : bindCallEnv st0 fenv lc bs fnName params args [] = .ok (envId, st)) :
    assocGet? (getEnv st envId).values "self" = some bs ∧
    assocGet? (getEnv st envId).nameToIndex "self" = Option.none ∧
    ∀ j, j < params.length →
      (getEnv st envId).slots[j]? =
        some (if j < args.length then args.getD j Value.none
              else Value.missingArg) := by
  have hbs' : bs.isNone = false := by
    cases bs <;> first | exact absurd rfl hbs | rfl
  rw [bindCallEnv_eq _ _ _ _ _ _ _ hbs'] at h
  simp only [Except.ok.injEq, Prod.mk.injEq] at h
  obtain ⟨h1, h2⟩ := h
  subst h1
  subst h2
  set N := st0.envs.length with hN
  set names := params.map (fun p => p.1) with hnames
  have hlen0 : N < (newEnv st0 (some fenv) lc).2.envs.length := by
    rw [newEnv_length]
    omega
  set S1 := envDefine (newEnv st0 (some fenv) lc).2 N "self" bs with hS1
  have hlen1 : N < S1.envs.length := by
    rw [hS1, envDefine_length]
    exact hlen0
  set S2 := definePositional S1 N names args 0 with hS2
  have hlen2 : N < S2.envs.length := by
    rw [hS2, definePositional_length]
    exact hlen1
  set S3 := fillMissing S2 N (names.drop args.length) args.length with hS3
  have hlen3 : N < S3.envs.length := by
    rw [hS3, fillMissing_length]
    exact hlen2
  have hselfdrop : ¬ "self" ∈ names.drop args.length := fun hm =>
    hself (List.mem_of_mem_drop hm)
  have hnameslen : names.length = params.length := by
    rw [hnames, List.length_map]
  refine ⟨?_, ?_, ?_⟩
  · rw [envDefine_values_other _ _ _ _ _ _ _ hlen3 (by decide)]
    rw [hS3, fillMissing_values_other _ _ _ _ _ hselfdrop hlen2]
    rw [hS2, definePositional_values_other _ _ _ hself _ _ _ hlen1]
    rw [hS1, envDefine_values_self _ _ _ _ _ _ hlen0]
  · rw [envDefine_nameToIndex_neg _ _ _ _ _ hlen3]
    rw [hS3, fillMissing_nameToIndex_other _ _ _ _ _ hselfdrop hlen2]
    rw [hS2, definePositional_nameToIndex_other _ _ _ hself _ _ _ hlen1]
    rw [hS1, envDefine_nameToIndex_neg _ _ _ _ _ hlen0]
    rw [getEnv_newEnv]
    rfl
  · intro j hj
    rw [envDefine_slots_neg _ _ _ _ _ hlen3]
    by_cases hja : j < args.length
    · rw [if_pos hja]
      rw [hS3]
      refine fillMissing_slots_frozen _ _ _ _ _ _ hlen2 hja ?_
      rw [hS2]
      have := definePositional_slots_set N names args S1 0 j hlen1
        (by omega) (by omega) (by omega)
      simpa using this
    · rw [if_neg hja]
      rw [hS3]
      refine fillMissing_slots_set _ _ _ _ _ hlen2 (by omega) ?_
      rw [List.length_drop]
      omega

/-- C6 witness: the amended theorem applied to the concrete one-parameter
call of the counterexample's shape. -/
theorem c6_amended_witness :
    assocGet? (getEnv
      ⟨[{ values := [("self", Value.int 99), ("p", Value.int 5),
            ("args", Value.list [Value.int 5])],
          slots := [Value.int 5], nameToIndex := [("p", 0)],
          constants := [], enclosing := some 0 }], false⟩ 0).values "self" =
      some (Value.int 99) ∧
    assocGet? (getEnv
      ⟨[{ values := [("self", Value.int 99), ("p", Value.int 5),
            ("args", Value.list [Value.int 5])],
          slots := [Value.int 5], nameToIndex := [("p", 0)],
          constants := [], enclosing := some 0 }], false⟩ 0).nameToIndex
      "self" = Option.none ∧
    ∀ j, j < [("p", (Option.none : Option AST))].length →
      (getEnv
        ⟨[{ values := [("self", Value.int 99), ("p", Value.int 5),
              ("args", Value.list [Value.int 5])],
            slots := [Value.int 5], nameToIndex := [("p", 0)],
            constants := [], enclosing := some 0 }], false⟩ 0).slots[j]? =
        some (if j < [Value.int 5].length then
          [Value.int 5].getD j Value.none else Value.missingArg) :=
  c6_amended ⟨[], false⟩ 0 1 (.int 99) "g" [("p", Option.none)] [.int 5] 0
    _ (by simp) (by simp) (by rfl)

/-! ## Claim C9 — inclusive ranges and list-literal splicing -/

/-- Helper: `range(start, stop, 1)` enumerates `start, start+1, …`. -/
theorem pyRangeList_one (start stop : Int) :
    pyRangeList start stop 1 =
      (List.range (stop - start).toNat).map (fun i => start + (i : Int)) := by
  unfold pyRangeList
  norm_num [Int.fdiv_one]

/-- Helper: `range(start, stop, -1)` enumerates `start, start-1, …`. -/
theorem pyRangeList_neg_one (start stop : Int) :
    pyRangeList start stop (-1) =
      (List.range (start - stop).toNat).map (fun i => start - (i : Int)) := by
  unfold pyRangeList
  norm_num [Int.fdiv_one]
  intro a x _ h
  subst h
  ring

/-- C9 counterexample: range operands are truncated to integers, so
`1.5..3.5` evaluates to `[1, 2, 3]`, whose first element is not the claimed
left endpoint `1.5` (the claim requires the list `[a, …, b]` with both
endpoints included for every pair of numeric operands). -/
theorem c9_counterexample :
    rangeValues (.float (Rat.mk' 3 2)) (.float (Rat.mk' 7 2)) =
      .ok (.list [.int 1, .int 2, .int 3]) ∧
    pyEq (.int 1) (.float (Rat.mk' 3 2)) = false := by
  exact ⟨by rfl, by rfl⟩

/-- C9 (amended): for every pair of operand values that `_to_num` accepts
(int, float, bool, numeric string), the range truncates both operands
towards zero with `int()` to integers `a` and `b` and evaluates to the
inclusive enumeration `[a, a±1, …, b]` (ascending when `a ≤ b`, descending
otherwise); in every list literal a direct `RangeExpression` element is
spliced (flattened) in place — its list elements are appended to the
accumulated elements — while every other element appends exactly its single
value; e.g. `[0, 1..3, 9] = [0, 1, 2, 3, 9]`. -/
theorem c9_amended :
    (∀ (u v : Value) (s e : NumVal), toNum u = some s → toNum v = some e →
      rangeValues u v =
        .ok (.list ((inclusiveRange s.trunc e.trunc).map Value.int))) ∧
    (∀ (fuel : Nat) (st st1 : IState) (envId : Nat) (a b : AST)
        (rest : List AST) (acc xs : List Value),
      evaluate fuel st envId (.RangeExpression a b) = .ok (.list xs, st1) →
      evalListElems (fuel + 1) st envId (.RangeExpression a b :: rest) acc =
        evalListElems fuel st1 envId rest (acc ++ xs)) ∧
    (∀ (fuel : Nat) (st st1 : IState) (envId : Nat) (element : AST)
        (rest : List AST) (acc : List Value) (val : Value),
      (∀ a b, element ≠ .RangeExpression a b) →
      evaluate fuel st envId element = .ok (val, st1) →
      evalListElems (fuel + 1) st envId (element :: rest) acc =
        evalListElems fuel st1 envId rest (acc ++ [val])) ∧
    resultValue (evaluate 16 initIState 0 (.ListLiteral [.Number (.int 0),
      .RangeExpression (.Number (.int 1)) (.Number (.int 3)),
      .Number (.int 9)])) =
      some (.list [.int 0, .int 1, .int 2, .int 3, .int 9]) := by
  refine ⟨?_, ?_, ?_, by rfl⟩
  · intro u v s e hs he
    simp only [rangeValues, hs, he, inclusiveRange]
    by_cases h : s.trunc ≤ e.trunc
    · simp only [h, if_true, pyRangeList_one]
      have h1 : e.trunc + 1 - s.trunc = e.trunc - s.trunc + 1 := by ring
      rw [h1]
    · simp only [h, if_false, pyRangeList_neg_one]
      have h1 : s.trunc - (e.trunc + -1) = s.trunc - e.trunc + 1 := by ring
      rw [h1]
  · intro fuel st st1 envId a b rest acc xs hev
    simp only [evalListElems, hev]
  · intro fuel st st1 envId element rest acc val hne hev
    cases element <;>
      first
        | (rename_i x y
           exact absurd rfl (hne x y))
        | simp only [evalListElems, hev]

/-- C9 witness: the amended theorem applied to the float/string range
`3.5.."1"` (truncating to `3..1`, descending), to the spliced range element
of `[0, 1..3, 9]`, and to its ordinary element `9`. -/
theorem c9_amended_witness :
    rangeValues (.float (Rat.mk' 7 2)) (.str "1") =
      .ok (.list ((inclusiveRange (NumVal.float (Rat.mk' 7 2)).trunc
        (NumVal.int 1).trunc).map Value.int)) ∧
    evalListElems 16 initIState 0
      [.RangeExpression (.Number (.int 1)) (.Number (.int 3)),
       .Number (.int 9)] [.int 0] =
      evalListElems 15 initIState 0 [.Number (.int 9)]
        ([.int 0] ++ [.int 1, .int 2, .int 3]) ∧
    evalListElems 16 initIState 0 [.Number (.int 9)] [.int 0] =
      evalListElems 15 initIState 0 [] ([.int 0] ++ [.int 9]) :=
  ⟨c9_amended.1 (.float (Rat.mk' 7 2)) (.str "1") (.float (Rat.mk' 7 2))
      (.int 1) rfl rfl,
   c9_amended.2.1 15 initIState initIState 0 (.Number (.int 1))
      (.Number (.int 3)) [.Number (.int 9)] [.int 0]
      [.int 1, .int 2, .int 3] rfl,
   c9_amended.2.2.1 15 initIState initIState 0 (.Number (.int 9)) []
      [.int 0] (.int 9) (fun _ _ h => AST.noConfusion h) rfl⟩

theorem exBindOk {eps a b : Type} {x : Except eps a} {f : a → Except eps b}
    {v : b} (h : (x >>= f) = Except.ok v) :
    ∃ u, x = Except.ok u ∧ f u = Except.ok v := by
  cases x with
  | error e => exact Except.noConfusion h
  | ok u => exact ⟨u, rfl, h⟩

theorem tryFoldBinary_or (l r : AST) : Parser.tryFoldBinary l .OR r = none := by
  cases l <;> cases r <;> rfl

theorem tryFoldBinary_and (l r : AST) :
    Parser.tryFoldBinary l .AND r = none := by
  cases l <;> cases r <;> rfl

theorem tryFoldBinary_foldOK (l : AST) (t : TokenType) (r : AST) (a : AST)
    (h : Parser.tryFoldBinary l t r = some a) : foldOK a = true := by
  unfold Parser.tryFoldBinary at h
  split at h
  all_goals
    (try split at h) <;>
    (try split at h) <;>
    first
      | exact Option.noConfusion h
      | (injection h with h; subst h; rfl)
      | (rcases Option.map_eq_some'.mp h with ⟨v, hv, rfl⟩; rfl)

theorem foldOK_binop_nofold (l : AST) (t : TokenType) (r : AST)
    (hn : Parser.tryFoldBinary l t r = none)
    (hl : foldOK l = true) (hr : foldOK r = true) :
    foldOK (.BinaryOperation l t r) = true := by
  simp [foldOK, hn, hl, hr]

theorem makeBinary_foldOK (l : AST) (op : Token) (r : AST)
    (hl : foldOK l = true) (hr : foldOK r = true) :
    foldOK (Parser.makeBinary l op r) = true := by
  unfold Parser.makeBinary
  cases hf : Parser.tryFoldBinary l op.type r with
  | none => exact foldOK_binop_nofold l op.type r hf hl hr
  | some a => exact tryFoldBinary_foldOK l op.type r a hf


theorem foldOKList_append_one (xs : List AST) (e : AST)
    (hx : foldOKList xs = true) (he : foldOK e = true) :
    foldOKList (xs ++ [e]) = true := by
  induction xs with
  | nil => simp [foldOKList, he]
  | cons a as ih =>
      simp only [List.cons_append, foldOKList, Bool.and_eq_true] at hx ⊢
      exact ⟨hx.1, ih hx.2⟩

theorem foldOKKw_append_one (xs : List (String × AST)) (k : String) (v : AST)
    (hx : foldOKKw xs = true) (hv : foldOK v = true) :
    foldOKKw (xs ++ [(k, v)]) = true := by
  induction xs with
  | nil => simp [foldOKKw, hv]
  | cons a as ih =>
      obtain ⟨s, e⟩ := a
      simp only [List.cons_append, foldOKKw, Bool.and_eq_true] at hx ⊢
      exact ⟨hx.1, ih hx.2⟩

theorem foldOKPairs_append_one (xs : List (AST × AST)) (k v : AST)
    (hx : foldOKPairs xs = true) (hk : foldOK k = true)
    (hv : foldOK v = true) :
    foldOKPairs (xs ++ [(k, v)]) = true := by
  induction xs with
  | nil => simp [foldOKPairs, hk, hv]
  | cons a as ih =>
      obtain ⟨x, y⟩ := a
      simp only [List.cons_append, foldOKPairs, Bool.and_eq_true] at hx ⊢
      exact ⟨hx.1, ih hx.2⟩

/-- Master induction: every AST a rule of the expression grammar returns
satisfies the folding invariant `foldOK` (loop rules preserve it). -/
theorem parserFoldOK : ∀ fuel : Nat,
    (∀ st e st', Parser.expression fuel st = .ok (e, st') →
      foldOK e = true) ∧
    (∀ st e st', Parser.range_expr fuel st = .ok (e, st') →
      foldOK e = true) ∧
    (∀ st e st', Parser.logic_or fuel st = .ok (e, st') →
      foldOK e = true) ∧
    (∀ n st e st', foldOK n = true →
      Parser.logicOrLoop fuel n st = .ok (e, st') → foldOK e = true) ∧
    (∀ st e st', Parser.logic_and fuel st = .ok (e, st') →
      foldOK e = true) ∧
    (∀ n st e st', foldOK n = true →
      Parser.logicAndLoop fuel n st = .ok (e, st') → foldOK e = true) ∧
    (∀ st e st', Parser.equality fuel st = .ok (e, st') →
      foldOK e = true) ∧
    (∀ n st e st', foldOK n = true →
      Parser.equalityLoop fuel n st = .ok (e, st') → foldOK e = true) ∧
    (∀ st e st', Parser.comparison fuel st = .ok (e, st') →
      foldOK e = true) ∧
    (∀ n st e st', foldOK n = true →
      Parser.comparisonLoop fuel n st = .ok (e, st') → foldOK e = true) ∧
    (∀ st e st', Parser.term fuel st = .ok (e, st') →
      foldOK e = true) ∧
    (∀ n st e st', foldOK n = true →
      Parser.termLoop fuel n st = .ok (e, st') → foldOK e = true) ∧
    (∀ st e st', Parser.factor fuel st = .ok (e, st') →
      foldOK e = true) ∧
    (∀ n st e st', foldOK n = true →
      Parser.factorLoop fuel n st = .ok (e, st') → foldOK e = true) ∧
    (∀ st e st', Parser.unary fuel st = .ok (e, st') →
      foldOK e = true) ∧
    (∀ st e st', Parser.call fuel st = .ok (e, st') →
      foldOK e = true) ∧
    (∀ n st e st', foldOK n = true →
      Parser.callLoop fuel n st = .ok (e, st') → foldOK e = true) ∧
    (∀ st args kwargs st', Parser.argument_list fuel st =
        .ok (args, kwargs, st') →
      foldOKList args = true ∧ foldOKKw kwargs = true) ∧
    (∀ args kwargs st as ks st', foldOKList args = true →
      foldOKKw kwargs = true →
      Parser.argumentListLoop fuel args kwargs st = .ok (as, ks, st') →
      foldOKList as = true ∧ foldOKKw ks = true) ∧
    (∀ st e st', Parser.primary fuel st = .ok (e, st') →
      foldOK e = true) ∧
    (∀ st e st', Parser.list_literal fuel st = .ok (e, st') →
      foldOK e = true) ∧
    (∀ elems st es st', foldOKList elems = true →
      Parser.listElemsLoop fuel elems st = .ok (es, st') →
      foldOKList es = true) ∧
    (∀ st e st', Parser.dict_literal fuel st = .ok (e, st') →
      foldOK e = true) ∧
    (∀ pairs st ps st', foldOKPairs pairs = true →
      Parser.dictPairsLoop fuel pairs st = .ok (ps, st') →
      foldOKPairs ps = true) := by
  intro fuel
  induction fuel with
  | zero =>
      refine ⟨?_, ?_, ?_, ?_, ?_, ?_, ?_, ?_, ?_, ?_, ?_, ?_, ?_, ?_, ?_,
        ?_, ?_, ?_, ?_, ?_, ?_, ?_, ?_, ?_⟩ <;>
        · intros
          rename_i h
          exact Except.noConfusion h
  | succ fuel ih =>
      obtain ⟨ihExpr, ihRange, ihOr, ihOrLoop, ihAnd, ihAndLoop, ihEq,
        ihEqLoop, ihCmp, ihCmpLoop, ihTerm, ihTermLoop, ihFactor,
        ihFactorLoop, ihUnary, ihCall, ihCallLoop, ihArgs, ihArgsLoop,
        ihPrimary, ihListLit, ihElems, ihDictLit, ihPairs⟩ := ih
      refine ⟨?_, ?_, ?_, ?_, ?_, ?_, ?_, ?_, ?_, ?_, ?_, ?_, ?_, ?_, ?_,
        ?_, ?_, ?_, ?_, ?_, ?_, ?_, ?_, ?_⟩
      -- expression
      · intro st e st' h
        simp only [Parser.expression] at h
        exact ihRange st e st' h
      -- range_expr
      · intro st e st' h
        simp only [Parser.range_expr] at h
        obtain ⟨⟨node, st1⟩, hor, h⟩ := exBindOk h
        obtain ⟨t, ht, h⟩ := exBindOk h
        have hnode := ihOr st node st1 hor
        by_cases hdd : t = TokenType.DOT_DOT
        · rw [if_pos hdd] at h
          obtain ⟨st2, he1, h⟩ := exBindOk h
          obtain ⟨⟨endNode, st3⟩, hor2, h⟩ := exBindOk h
          simp only [Except.ok.injEq, Prod.mk.injEq] at h
          obtain ⟨rfl, rfl⟩ := h
          have hend := ihOr st2 endNode st3 hor2
          simp [foldOK, hnode, hend]
        · rw [if_neg hdd] at h
          simp only [Except.ok.injEq, Prod.mk.injEq] at h
          obtain ⟨rfl, rfl⟩ := h
          exact hnode
      -- logic_or
      · intro st e st' h
        simp only [Parser.logic_or] at h
        obtain ⟨⟨node, st1⟩, hand, h⟩ := exBindOk h
        exact ihOrLoop node st1 e st' (ihAnd st node st1 hand) h
      -- logicOrLoop
      · intro n st e st' hn h
        simp only [Parser.logicOrLoop] at h
        by_cases hc : Parser.curIs st TokenType.OR = true
        · rw [if_pos hc] at h
          obtain ⟨st1, he1, h⟩ := exBindOk h
          obtain ⟨⟨right, st2⟩, hand, h⟩ := exBindOk h
          have hr := ihAnd st1 right st2 hand
          exact ihOrLoop (AST.BinaryOperation n TokenType.OR right) st2 e st'
            (foldOK_binop_nofold n TokenType.OR right
              (tryFoldBinary_or n right) hn hr) h
        · rw [if_neg hc] at h
          simp only [Except.ok.injEq, Prod.mk.injEq] at h
          obtain ⟨rfl, rfl⟩ := h
          exact hn
      -- logic_and
      · intro st e st' h
        simp only [Parser.logic_and] at h
        obtain ⟨⟨node, st1⟩, heq, h⟩ := exBindOk h
        exact ihAndLoop node st1 e st' (ihEq st node st1 heq) h
      -- logicAndLoop
      · intro n st e st' hn h
        simp only [Parser.logicAndLoop] at h
        by_cases hc : Parser.curIs st TokenType.AND = true
        · rw [if_pos hc] at h
          obtain ⟨st1, he1, h⟩ := exBindOk h
          obtain ⟨⟨right, st2⟩, heq, h⟩ := exBindOk h
          have hr := ihEq st1 right st2 heq
          exact ihAndLoop (AST.BinaryOperation n TokenType.AND right) st2 e st'
            (foldOK_binop_nofold n TokenType.AND right
              (tryFoldBinary_and n right) hn hr) h
        · rw [if_neg hc] at h
          simp only [Except.ok.injEq, Prod.mk.injEq] at h
          obtain ⟨rfl, rfl⟩ := h
          exact hn
      -- equality
      · intro st e st' h
        simp only [Parser.equality] at h
        obtain ⟨⟨node, st1⟩, hcmp, h⟩ := exBindOk h
        exact ihEqLoop node st1 e st' (ihCmp st node st1 hcmp) h
      -- equalityLoop
      · intro n st e st' hn h
        simp only [Parser.equalityLoop] at h
        by_cases hc : (Parser.curIs st TokenType.EQUALS ||
            Parser.curIs st TokenType.NOT_EQUALS) = true
        · rw [if_pos hc] at h
          cases hcur : Parser.currentToken st with
          | none => rw [hcur] at h; exact Except.noConfusion h
          | some op =>
              rw [hcur] at h
              obtain ⟨st1, he1, h⟩ := exBindOk h
              obtain ⟨⟨right, st2⟩, hcmp, h⟩ := exBindOk h
              exact ihEqLoop (Parser.makeBinary n op right) st2 e st'
                (makeBinary_foldOK n op right hn (ihCmp st1 right st2 hcmp)) h
        · rw [if_neg hc] at h
          simp only [Except.ok.injEq, Prod.mk.injEq] at h
          obtain ⟨rfl, rfl⟩ := h
          exact hn
      -- comparison
      · intro st e st' h
        simp only [Parser.comparison] at h
        obtain ⟨⟨node, st1⟩, hterm, h⟩ := exBindOk h
        exact ihCmpLoop node st1 e st' (ihTerm st node st1 hterm) h
      -- comparisonLoop
      · intro n st e st' hn h
        simp only [Parser.comparisonLoop] at h
        by_cases hc : (Parser.curIs st TokenType.LESS_THAN ||
            Parser.curIs st TokenType.GREATER_THAN ||
            Parser.curIs st TokenType.LESS_THAN_EQUALS ||
            Parser.curIs st TokenType.GREATER_THAN_EQUALS) = true
        · rw [if_pos hc] at h
          cases hcur : Parser.currentToken st with
          | none => rw [hcur] at h; exact Except.noConfusion h
          | some op =>
              rw [hcur] at h
              obtain ⟨st1, he1, h⟩ := exBindOk h
              obtain ⟨⟨right, st2⟩, hterm, h⟩ := exBindOk h
              exact ihCmpLoop (Parser.makeBinary n op right) st2 e st'
                (makeBinary_foldOK n op right hn
                  (ihTerm st1 right st2 hterm)) h
        · rw [if_neg hc] at h
          simp only [Except.ok.injEq, Prod.mk.injEq] at h
          obtain ⟨rfl, rfl⟩ := h
          exact hn
      -- term
      · intro st e st' h
        simp only [Parser.term] at h
        obtain ⟨⟨node, st1⟩, hf, h⟩ := exBindOk h
        exact ihTermLoop node st1 e st' (ihFactor st node st1 hf) h
      -- termLoop
      · intro n st e st' hn h
        simp only [Parser.termLoop] at h
        by_cases hc : (Parser.curIs st TokenType.PLUS ||
            Parser.curIs st TokenType.MINUS) = true
        · rw [if_pos hc] at h
          cases hcur : Parser.currentToken st with
          | none => rw [hcur] at h; exact Except.noConfusion h
          | some op =>
              rw [hcur] at h
              obtain ⟨st1, he1, h⟩ := exBindOk h
              obtain ⟨⟨right, st2⟩, hf, h⟩ := exBindOk h
              exact ihTermLoop (Parser.makeBinary n op right) st2 e st'
                (makeBinary_foldOK n op right hn
                  (ihFactor st1 right st2 hf)) h
        · rw [if_neg hc] at h
          simp only [Except.ok.injEq, Prod.mk.injEq] at h
          obtain ⟨rfl, rfl⟩ := h
          exact hn
      -- factor
      · intro st e st' h
        simp only [Parser.factor] at h
        obtain ⟨⟨node, st1⟩, hu, h⟩ := exBindOk h
        exact ihFactorLoop node st1 e st' (ihUnary st node st1 hu) h
      -- factorLoop
      · intro n st e st' hn h
        simp only [Parser.factorLoop] at h
        by_cases hc : (Parser.curIs st TokenType.MULTIPLY ||
            Parser.curIs st TokenType.DIVIDE ||
            Parser.curIs st TokenType.MODULO ||
            Parser.curIs st TokenType.FLOOR_DIVIDE ||
            Parser.curIs st TokenType.POWER) = true
        · rw [if_pos hc] at h
          cases hcur : Parser.currentToken st with
          | none => rw [hcur] at h; exact Except.noConfusion h
          | some op =>
              rw [hcur] at h
              obtain ⟨st1, he1, h⟩ := exBindOk h
              obtain ⟨⟨right, st2⟩, hu, h⟩ := exBindOk h
              exact ihFactorLoop (Parser.makeBinary n op right) st2 e st'
                (makeBinary_foldOK n op right hn
                  (ihUnary st1 right st2 hu)) h
        · rw [if_neg hc] at h
          simp only [Except.ok.injEq, Prod.mk.injEq] at h
          obtain ⟨rfl, rfl⟩ := h
          exact hn
      -- unary
      · intro st e st' h
        simp only [Parser.unary] at h
        obtain ⟨t, ht, h⟩ := exBindOk h
        by_cases h1 : (t = TokenType.MINUS || t = TokenType.PLUS ||
            t = TokenType.NOT) = true
        · rw [if_pos h1] at h
          obtain ⟨st1, he1, h⟩ := exBindOk h
          obtain ⟨⟨ex, st2⟩, hu, h⟩ := exBindOk h
          simp only [Except.ok.injEq, Prod.mk.injEq] at h
          obtain ⟨rfl, rfl⟩ := h
          exact ihUnary st1 ex st2 hu
        · rw [if_neg h1] at h
          by_cases h2 : t = TokenType.AT
          · rw [if_pos h2] at h
            obtain ⟨st1, he1, h⟩ := exBindOk h
            obtain ⟨⟨target, st2⟩, hcall, h⟩ := exBindOk h
            simp only [Except.ok.injEq, Prod.mk.injEq] at h
            obtain ⟨rfl, rfl⟩ := h
            exact ihCall st1 target st2 hcall
          · rw [if_neg h2] at h
            by_cases h3 : t = TokenType.SPAWN
            · rw [if_pos h3] at h
              obtain ⟨st1, he1, h⟩ := exBindOk h
              obtain ⟨⟨callNode, st2⟩, hcall, h⟩ := exBindOk h
              simp only [Except.ok.injEq, Prod.mk.injEq] at h
              obtain ⟨rfl, rfl⟩ := h
              exact ihCall st1 callNode st2 hcall
            · rw [if_neg h3] at h
              exact ihCall st e st' h
      -- call
      · intro st e st' h
        simp only [Parser.call] at h
        obtain ⟨⟨node, st1⟩, hp, h⟩ := exBindOk h
        exact ihCallLoop node st1 e st' (ihPrimary st node st1 hp) h
      -- callLoop
      · intro n st e st' hn h
        simp only [Parser.callLoop] at h
        by_cases hP : Parser.curIs st TokenType.LPAREN = true
        · rw [if_pos hP] at h
          obtain ⟨st1, he1, h⟩ := exBindOk h
          obtain ⟨⟨args, kwargs, st2⟩, hargs, h⟩ := exBindOk h
          obtain ⟨st3, he2, h⟩ := exBindOk h
          obtain ⟨hA, hK⟩ := ihArgs st1 args kwargs st2 hargs
          refine ihCallLoop _ st3 e st' ?_ h
          split
          · simp [foldOK, hA, hK]
          · rename_i o m a0 k0 oe
            simp only [foldOK, Bool.and_eq_true] at hn ⊢
            exact ⟨⟨hA, hK⟩, hn.2⟩
          · exact hn
        · rw [if_neg hP] at h
          by_cases hD : Parser.curIs st TokenType.DOT = true
          · rw [if_pos hD] at h
            obtain ⟨st1, he1, h⟩ := exBindOk h
            obtain ⟨mname, hm, h⟩ := exBindOk h
            obtain ⟨st2, he2, h⟩ := exBindOk h
            split at h
            · by_cases hL : Parser.curIs st2 TokenType.LPAREN = true
              · rw [if_pos hL] at h
                obtain ⟨st3, he3, h⟩ := exBindOk h
                obtain ⟨⟨args, kwargs, st4⟩, hargs, h⟩ := exBindOk h
                obtain ⟨st5, he4, h⟩ := exBindOk h
                obtain ⟨hA, hK⟩ := ihArgs st3 args kwargs st4 hargs
                exact ihCallLoop _ st5 e st' (by simp [foldOK, hA, hK]) h
              · rw [if_neg hL] at h
                exact ihCallLoop _ st2 e st'
                  (by simp [foldOK, foldOKList, foldOKKw]) h
            · by_cases hL : Parser.curIs st2 TokenType.LPAREN = true
              · rw [if_pos hL] at h
                obtain ⟨st3, he3, h⟩ := exBindOk h
                obtain ⟨⟨args, kwargs, st4⟩, hargs, h⟩ := exBindOk h
                obtain ⟨st5, he4, h⟩ := exBindOk h
                obtain ⟨hA, hK⟩ := ihArgs st3 args kwargs st4 hargs
                refine ihCallLoop _ st5 e st' ?_ h
                split
                · simp [foldOK, foldOKOpt, hA, hK]
                · simp only [foldOK, foldOKOpt, Bool.and_eq_true]
                  exact ⟨⟨hA, hK⟩, hn⟩
              · rw [if_neg hL] at h
                exact ihCallLoop _ st2 e st' (by simp [foldOK, hn]) h
          · rw [if_neg hD] at h
            by_cases hB : Parser.curIs st TokenType.LBRACKET = true
            · rw [if_pos hB] at h
              obtain ⟨st1, he1, h⟩ := exBindOk h
              obtain ⟨⟨idx, st2⟩, hex, h⟩ := exBindOk h
              obtain ⟨st3, he2, h⟩ := exBindOk h
              have hidx := ihExpr _ idx _ hex
              exact ihCallLoop _ st3 e st' (by simp [foldOK, hn, hidx]) h
            · rw [if_neg hB] at h
              simp only [Except.ok.injEq, Prod.mk.injEq] at h
              obtain ⟨rfl, rfl⟩ := h
              exact hn
      -- argument_list
      · intro st args kwargs st' h
        simp only [Parser.argument_list] at h
        obtain ⟨t, ht, h⟩ := exBindOk h
        by_cases hR : t = TokenType.RPAREN
        · rw [if_pos hR] at h
          simp only [Except.ok.injEq, Prod.mk.injEq] at h
          obtain ⟨rfl, rfl, rfl⟩ := h
          exact ⟨rfl, rfl⟩
        · rw [if_neg hR] at h
          by_cases hkw : Parser.isKwStart st = true
          · rw [if_pos hkw] at h
            obtain ⟨key, hkey, h⟩ := exBindOk h
            obtain ⟨st1, he1, h⟩ := exBindOk h
            obtain ⟨st2, he2, h⟩ := exBindOk h
            obtain ⟨⟨v, st3⟩, hv, h⟩ := exBindOk h
            exact ihArgsLoop [] [(key, v)] st3 args kwargs st' rfl
              (by simp [foldOKKw, ihExpr _ v _ hv]) h
          · rw [if_neg hkw] at h
            obtain ⟨⟨first, st1⟩, hf, h⟩ := exBindOk h
            exact ihArgsLoop [first] [] st1 args kwargs st'
              (by simp [foldOKList, ihExpr _ first _ hf]) rfl h
      -- argumentListLoop
      · intro args kwargs st as ks st' hA hK h
        simp only [Parser.argumentListLoop] at h
        obtain ⟨t, ht, h⟩ := exBindOk h
        by_cases hC : t = TokenType.COMMA
        · rw [if_pos hC] at h
          obtain ⟨st1, he1, h⟩ := exBindOk h
          by_cases hkw : Parser.isKwStart st1 = true
          · rw [if_pos hkw] at h
            obtain ⟨key, hkey, h⟩ := exBindOk h
            obtain ⟨st2, he2, h⟩ := exBindOk h
            obtain ⟨st3, he3, h⟩ := exBindOk h
            obtain ⟨⟨v, st4⟩, hv, h⟩ := exBindOk h
            exact ihArgsLoop args (kwargs ++ [(key, v)]) st4 as ks st' hA
              (foldOKKw_append_one kwargs key v hK (ihExpr _ v _ hv)) h
          · rw [if_neg hkw] at h
            obtain ⟨⟨e0, st2⟩, he0, h⟩ := exBindOk h
            exact ihArgsLoop (args ++ [e0]) kwargs st2 as ks st'
              (foldOKList_append_one args e0 hA (ihExpr _ e0 _ he0)) hK h
        · rw [if_neg hC] at h
          simp only [Except.ok.injEq, Prod.mk.injEq] at h
          obtain ⟨rfl, rfl, rfl⟩ := h
          exact ⟨hA, hK⟩
      -- primary
      · intro st e st' h
        simp only [Parser.primary] at h
        split at h
        · exact Except.noConfusion h
        · split at h
          · obtain ⟨st1, he1, h⟩ := exBindOk h
            split at h
            · simp only [Except.ok.injEq, Prod.mk.injEq] at h
              obtain ⟨rfl, rfl⟩ := h
              rfl
            · exact Except.noConfusion h
          · obtain ⟨st1, he1, h⟩ := exBindOk h
            split at h
            · simp only [Except.ok.injEq, Prod.mk.injEq] at h
              obtain ⟨rfl, rfl⟩ := h
              rfl
            · exact Except.noConfusion h
          · obtain ⟨st1, he1, h⟩ := exBindOk h
            simp only [Except.ok.injEq, Prod.mk.injEq] at h
            obtain ⟨rfl, rfl⟩ := h
            rfl
          · obtain ⟨st1, he1, h⟩ := exBindOk h
            simp only [Except.ok.injEq, Prod.mk.injEq] at h
            obtain ⟨rfl, rfl⟩ := h
            rfl
          · obtain ⟨st1, he1, h⟩ := exBindOk h
            simp only [Except.ok.injEq, Prod.mk.injEq] at h
            obtain ⟨rfl, rfl⟩ := h
            rfl
          · obtain ⟨st1, he1, h⟩ := exBindOk h
            simp only [Except.ok.injEq, Prod.mk.injEq] at h
            obtain ⟨rfl, rfl⟩ := h
            rfl
          · obtain ⟨st1, he1, h⟩ := exBindOk h
            split at h
            · simp only [Except.ok.injEq, Prod.mk.injEq] at h
              obtain ⟨rfl, rfl⟩ := h
              rfl
            · exact Except.noConfusion h
          · obtain ⟨st1, he1, h⟩ := exBindOk h
            obtain ⟨⟨ex, st2⟩, hex, h⟩ := exBindOk h
            obtain ⟨st3, he2, h⟩ := exBindOk h
            simp only [Except.ok.injEq, Prod.mk.injEq] at h
            obtain ⟨rfl, rfl⟩ := h
            exact ihExpr _ _ _ hex
          · exact ihListLit _ e st' h
          · exact ihDictLit _ e st' h
          · exact Except.noConfusion h
      -- list_literal
      · intro st e st' h
        simp only [Parser.list_literal] at h
        obtain ⟨st1, he1, h⟩ := exBindOk h
        obtain ⟨t, ht, h⟩ := exBindOk h
        by_cases hRB : t = TokenType.RBRACKET
        · rw [if_pos hRB] at h
          obtain ⟨st2, he2, h⟩ := exBindOk h
          simp only [Except.ok.injEq, Prod.mk.injEq] at h
          obtain ⟨rfl, rfl⟩ := h
          rfl
        · rw [if_neg hRB] at h
          obtain ⟨⟨first, st2⟩, hfe, h⟩ := exBindOk h
          obtain ⟨t2, ht2, h⟩ := exBindOk h
          have hfirst := ihExpr _ first _ hfe
          by_cases hFor : t2 = TokenType.FOR
          · rw [if_pos hFor] at h
            obtain ⟨st3, he3, h⟩ := exBindOk h
            obtain ⟨vn, hvn, h⟩ := exBindOk h
            obtain ⟨st4, he4, h⟩ := exBindOk h
            obtain ⟨st5, he5, h⟩ := exBindOk h
            obtain ⟨⟨it, st6⟩, hit, h⟩ := exBindOk h
            obtain ⟨t3, ht3, h⟩ := exBindOk h
            have hit2 := ihExpr _ it _ hit
            by_cases hIf : t3 = TokenType.IF
            · rw [if_pos hIf] at h
              obtain ⟨st7, he6, h⟩ := exBindOk h
              obtain ⟨⟨c0, st8⟩, hc0, h⟩ := exBindOk h
              obtain ⟨y, hy, h⟩ := exBindOk h
              have hy2 : Except.ok ((some c0 : Option AST), st8) =
                  Except.ok y := hy
              simp only [Except.ok.injEq] at hy2
              subst hy2
              obtain ⟨st9, he7, h⟩ := exBindOk h
              simp only [Except.ok.injEq, Prod.mk.injEq] at h
              obtain ⟨rfl, rfl⟩ := h
              have hc2 := ihExpr _ c0 _ hc0
              simp [foldOK, foldOKOpt, hfirst, hit2, hc2]
            · rw [if_neg hIf] at h
              obtain ⟨y, hy, h⟩ := exBindOk h
              have hy2 : Except.ok ((Option.none : Option AST), st6) =
                  Except.ok y := hy
              simp only [Except.ok.injEq] at hy2
              subst hy2
              obtain ⟨st7, he6, h⟩ := exBindOk h
              simp only [Except.ok.injEq, Prod.mk.injEq] at h
              obtain ⟨rfl, rfl⟩ := h
              simp [foldOK, foldOKOpt, hfirst, hit2]
          · rw [if_neg hFor] at h
            obtain ⟨⟨elems, st3⟩, hel, h⟩ := exBindOk h
            obtain ⟨st4, he3, h⟩ := exBindOk h
            simp only [Except.ok.injEq, Prod.mk.injEq] at h
            obtain ⟨rfl, rfl⟩ := h
            have helems : foldOKList elems = true :=
              ihElems [first] _ elems _ (by simp [foldOKList, hfirst]) hel
            simp [foldOK, helems]
      -- listElemsLoop
      · intro elems st es st' hE h
        simp only [Parser.listElemsLoop] at h
        obtain ⟨t, ht, h⟩ := exBindOk h
        by_cases hC : t = TokenType.COMMA
        · rw [if_pos hC] at h
          obtain ⟨st1, he1, h⟩ := exBindOk h
          obtain ⟨⟨e0, st2⟩, he0, h⟩ := exBindOk h
          exact ihElems (elems ++ [e0]) st2 es st'
            (foldOKList_append_one elems e0 hE (ihExpr _ e0 _ he0)) h
        · rw [if_neg hC] at h
          simp only [Except.ok.injEq, Prod.mk.injEq] at h
          obtain ⟨rfl, rfl⟩ := h
          exact hE
      -- dict_literal
      · intro st e st' h
        simp only [Parser.dict_literal] at h
        obtain ⟨st1, he1, h⟩ := exBindOk h
        by_cases hRB : Parser.curIs (Parser.skipNewlines (fuel + 1) st1)
            TokenType.RBRACE = true
        · rw [if_pos hRB] at h
          obtain ⟨st2, he2, h⟩ := exBindOk h
          simp only [Except.ok.injEq, Prod.mk.injEq] at h
          obtain ⟨rfl, rfl⟩ := h
          rfl
        · rw [if_neg hRB] at h
          obtain ⟨⟨firstKey, st2⟩, hfk, h⟩ := exBindOk h
          obtain ⟨st3, he3, h⟩ := exBindOk h
          obtain ⟨⟨firstVal, st4⟩, hfv, h⟩ := exBindOk h
          have hk := ihExpr _ firstKey _ hfk
          have hv := ihExpr _ firstVal _ hfv
          by_cases hFor : Parser.curIs st4 TokenType.FOR = true
          · rw [if_pos hFor] at h
            obtain ⟨st5, he5, h⟩ := exBindOk h
            obtain ⟨vn, hvn, h⟩ := exBindOk h
            obtain ⟨st6, he6, h⟩ := exBindOk h
            obtain ⟨st7, he7, h⟩ := exBindOk h
            obtain ⟨⟨it, st8⟩, hit, h⟩ := exBindOk h
            have hit2 := ihExpr _ it _ hit
            by_cases hIf : Parser.curIs st8 TokenType.IF = true
            · rw [if_pos hIf] at h
              obtain ⟨st9, he8, h⟩ := exBindOk h
              obtain ⟨⟨c0, st10⟩, hc0, h⟩ := exBindOk h
              obtain ⟨y, hy, h⟩ := exBindOk h
              have hy2 : Except.ok ((some c0 : Option AST), st10) =
                  Except.ok y := hy
              simp only [Except.ok.injEq] at hy2
              subst hy2
              obtain ⟨st11, he9, h⟩ := exBindOk h
              simp only [Except.ok.injEq, Prod.mk.injEq] at h
              obtain ⟨rfl, rfl⟩ := h
              have hc2 := ihExpr _ c0 _ hc0
              simp [foldOK, foldOKOpt, hk, hv, hit2, hc2]
            · rw [if_neg hIf] at h
              obtain ⟨y, hy, h⟩ := exBindOk h
              have hy2 : Except.ok ((Option.none : Option AST), st8) =
                  Except.ok y := hy
              simp only [Except.ok.injEq] at hy2
              subst hy2
              obtain ⟨st9, he8, h⟩ := exBindOk h
              simp only [Except.ok.injEq, Prod.mk.injEq] at h
              obtain ⟨rfl, rfl⟩ := h
              simp [foldOK, foldOKOpt, hk, hv, hit2]
          · rw [if_neg hFor] at h
            obtain ⟨⟨pairs, st5⟩, hps, h⟩ := exBindOk h
            obtain ⟨st6, he4, h⟩ := exBindOk h
            simp only [Except.ok.injEq, Prod.mk.injEq] at h
            obtain ⟨rfl, rfl⟩ := h
            have hpairs : foldOKPairs pairs = true :=
              ihPairs [(firstKey, firstVal)] _ pairs _
                (by simp [foldOKPairs, hk, hv]) hps
            simp [foldOK, hpairs]
      -- dictPairsLoop
      · intro pairs st ps st' hP h
        simp only [Parser.dictPairsLoop] at h
        by_cases hC : Parser.curIs st TokenType.COMMA = true
        · rw [if_pos hC] at h
          obtain ⟨st1, he1, h⟩ := exBindOk h
          by_cases hRB : Parser.curIs (Parser.skipNewlines (fuel + 1) st1)
              TokenType.RBRACE = true
          · rw [if_pos hRB] at h
            simp only [Except.ok.injEq, Prod.mk.injEq] at h
            obtain ⟨rfl, rfl⟩ := h
            exact hP
          · rw [if_neg hRB] at h
            obtain ⟨⟨k, st2⟩, hk, h⟩ := exBindOk h
            obtain ⟨st3, he2, h⟩ := exBindOk h
            obtain ⟨⟨v, st4⟩, hv, h⟩ := exBindOk h
            exact ihPairs (pairs ++ [(k, v)]) _ ps st'
              (foldOKPairs_append_one pairs k v hP (ihExpr _ k _ hk)
                (ihExpr _ v _ hv)) h
        · rw [if_neg hC] at h
          simp only [Except.ok.injEq, Prod.mk.injEq] at h
          obtain ⟨rfl, rfl⟩ := h
          exact hP


/-- C3 counterexample: parsing `!true` succeeds and leaves the
`UnaryOperation` node, whose only operand is a literal, in the AST —
`Parser.unary` builds `UnaryOperation` nodes without ever constant-folding
them, refuting the claim that every literal-operand `UnaryOperation` is
folded during parsing. -/
theorem c3_counterexample :
    Parser.expression 32
      { tokens := [⟨.NOT, .str "!", 1, 1⟩, ⟨.TRUE, .str "true", 1, 2⟩,
                   ⟨.EOF, .none, 1, 3⟩], pos := 0 } =
      .ok (.UnaryOperation .NOT (.Boolean true),
        { tokens := [⟨.NOT, .str "!", 1, 1⟩, ⟨.TRUE, .str "true", 1, 2⟩,
                     ⟨.EOF, .none, 1, 3⟩], pos := 2 }) ∧
    isLit (.Boolean true) = true := ⟨rfl, rfl⟩

/-- C3 (amended): every expression the parser accepts satisfies the folding
invariant `foldOK`: a `BinaryOperation` whose two operands are literals
remains in the AST exactly when `_try_fold_binary` declines to fold it
(`&&`/`||` chains are built without folding; division, floor division and
modulo by a literal zero and power-overflow cases remain; unsupported
literal type combinations remain), while `UnaryOperation` nodes are never
folded at all. -/
theorem c3_amended (fuel : Nat) (st : Parser.PState) (e : AST)
    (st' : Parser.PState)
    (h : Parser.expression fuel st = .ok (e, st')) : foldOK e = true :=
  (parserFoldOK fuel).1 st e st' h

/-- C3 witness: the amended theorem applied to the parse of `!true`. -/
theorem c3_amended_witness :
    foldOK (.UnaryOperation .NOT (.Boolean true)) = true :=
  c3_amended 32
    { tokens := [⟨.NOT, .str "!", 1, 1⟩, ⟨.TRUE, .str "true", 1, 2⟩,
                 ⟨.EOF, .none, 1, 3⟩], pos := 0 }
    (.UnaryOperation .NOT (.Boolean true))
    { tokens := [⟨.NOT, .str "!", 1, 1⟩, ⟨.TRUE, .str "true", 1, 2⟩,
                 ⟨.EOF, .none, 1, 3⟩], pos := 2 } rfl

end AML
